import Mathlib

/-!
# PullPilot static analyzer: normalizers and orchestration

A shallow embedding of `internal/analyzer/static/linter.go` and of the URL
handling of `initializePRContext` in `main.go`.

Go strings are modelled as Lean `String`s and processed through their
character lists.  Every delimiter the code searches for (`{`, `[`, `}`, `,`,
`/`, `.`) is ASCII, so on UTF-8 text a byte offset returned by the Go
library and the character offset used here cut a string at the same place.
Go `int` fields are only copied, never computed with, and are modelled as `Int`.
A `nil` slice and an empty slice are both the empty list.

The Go standard library routines the file calls are transcribed from their
documented behaviour in the namespaces `unicode`, `strings` and `filepath`.
The decoders `json.Unmarshal` / `xml.Unmarshal`, the case table of
`unicode.ToLower` above ASCII, `filepath.Join`, and everything the operating
system decides (temporary directory, file writes, child processes) are
parameters of the definitions that use them.  For the statements that depend
on how member names are matched, `json.Unmarshal` into `lintResults` is also
transcribed from the documentation of `encoding/json`, over a scanner and a
Unicode folding that stay parameters.
-/

set_option autoImplicit false
set_option maxRecDepth 100000

namespace PullPilot

/-! ## Go standard library routines used by the source -/

/-- Go `unicode.IsSpace`: the Latin-1 white space characters and the
    `White_Space` code points above Latin-1. -/
def unicode.IsSpace (r : Char) : Bool :=
  if r.toNat ≤ 0xFF then
    r.toNat = 0x09 || r.toNat = 0x0A || r.toNat = 0x0B || r.toNat = 0x0C ||
    r.toNat = 0x0D || r.toNat = 0x20 || r.toNat = 0x85 || r.toNat = 0xA0
  else
    r.toNat = 0x1680 || (0x2000 ≤ r.toNat && r.toNat ≤ 0x200A) ||
    r.toNat = 0x2028 || r.toNat = 0x2029 || r.toNat = 0x202F ||
    r.toNat = 0x205F || r.toNat = 0x3000

/-- Go `unicode.ToLower`: ASCII is handled inline (`A`..`Z` shifted by 32,
    every other ASCII character unchanged); above ASCII the case table is
    consulted, which is the parameter `table`. -/
def unicode.ToLower (table : Char → Char) (r : Char) : Char :=
  if r.toNat ≤ 0x7F then
    if 'A'.toNat ≤ r.toNat ∧ r.toNat ≤ 'Z'.toNat then Char.ofNat (r.toNat + 32) else r
  else table r

/-- Go `strings.ToLower`: every character mapped through `unicode.ToLower`. -/
def strings.ToLower (table : Char → Char) (s : String) : String :=
  String.mk (s.data.map (unicode.ToLower table))

/-- Go `strings.TrimSpace`: leading and trailing white space removed. -/
def strings.TrimSpace (s : String) : String :=
  String.mk ((s.data.dropWhile unicode.IsSpace).rdropWhile unicode.IsSpace)

/-- Index of the first character of the list that belongs to `chars`. -/
def strings.indexAnyChars (chars : List Char) : List Char → Option Nat
  | [] => none
  | c :: cs =>
    if c ∈ chars then some 0 else (strings.indexAnyChars chars cs).map (· + 1)

/-- Index of the last character of the list that belongs to `chars`. -/
def strings.lastIndexAnyChars (chars : List Char) : List Char → Option Nat
  | [] => none
  | c :: cs =>
    match strings.lastIndexAnyChars chars cs with
    | some i => some (i + 1)
    | none => if c ∈ chars then some 0 else none

/-- Go `strings.IndexAny`: index of the first occurrence in `s` of any
    character of `chars`; `none` stands for the result `-1`. -/
def strings.IndexAny (s chars : String) : Option Nat :=
  strings.indexAnyChars chars.data s.data

/-- Go `strings.LastIndexAny`: index of the last occurrence in `s` of any
    character of `chars`; `none` stands for the result `-1`. -/
def strings.LastIndexAny (s chars : String) : Option Nat :=
  strings.lastIndexAnyChars chars.data s.data

/-- Go `strings.TrimRight`: all trailing characters contained in `cutset`
    removed. -/
def strings.TrimRight (s cutset : String) : String :=
  String.mk (s.data.rdropWhile (fun c => decide (c ∈ cutset.data)))

/-- Go `strings.HasSuffix`:
    `len(s) >= len(suffix) && s[len(s)-len(suffix):] == suffix`. -/
def strings.HasSuffix (s suffix : String) : Bool :=
  decide (suffix.data.length ≤ s.data.length) &&
    decide (s.data.drop (s.data.length - suffix.data.length) = suffix.data)

/-- The pieces of a character list between the occurrences of `sep`. -/
def strings.splitChars (sep : Char) : List Char → List (List Char)
  | [] => [[]]
  | c :: cs =>
    if c = sep then [] :: strings.splitChars sep cs
    else
      match strings.splitChars sep cs with
      | [] => [[c]]
      | p :: ps => (c :: p) :: ps

/-- Go `strings.Split(s, sep)` for a separator of one character: the
    substrings between the occurrences of `sep`, one more than there are
    occurrences. -/
def strings.Split (s : String) (sep : Char) : List String :=
  (strings.splitChars sep s.data).map String.mk

/-- The Go slice expression `s[lo:hi]`. -/
def slice (s : String) (lo hi : Nat) : String :=
  String.mk ((s.data.take hi).drop lo)

/-- The Go slice expression `s[lo:]`. -/
def sliceFrom (s : String) (lo : Nat) : String :=
  String.mk (s.data.drop lo)

/-- Go `filepath.Base` on a system whose only path separator is `/` and
    whose volume names are empty: `"."` for the empty path, trailing
    separators stripped, then the text after the last separator, and `"/"`
    when nothing is left. -/
def filepath.Base (path : String) : String :=
  if path.data = [] then "." else
  let stripped := path.data.rdropWhile (fun c => c = '/')
  let last :=
    match strings.lastIndexAnyChars ['/'] stripped with
    | some i => stripped.drop (i + 1)
    | none => stripped
  if last = [] then "/" else String.mk last

/-! ## Data model -/

/-- The fields of `models.Issue` that the analyzer fills in.
    `models.Severity` is a string type: `models.Severity(x)` is a type
    conversion and keeps the text of `x`. -/
structure Issue where
  Path : String
  Line : Int
  Column : Int
  Severity : String
  Title : String
  Description : String
  Suggestion : String
  Source : String
  deriving DecidableEq, Repr

/-- The fields of `models.File` that the analyzer reads. -/
structure File where
  Path : String
  Content : String
  deriving DecidableEq, Repr

/-- The anonymous `Pos` struct inside `lintResults.Issues`. -/
structure Pos where
  Filename : String
  Line : Int
  Column : Int
  deriving DecidableEq, Repr

/-- One element of `lintResults.Issues` in `processLinterOutput`. -/
structure IssueData where
  FromLinter : String
  Text : String
  Severity : String
  SourceLines : List String
  Pos : Pos
  deriving DecidableEq, Repr

/-- The local `lintResults` struct that `processLinterOutput` decodes into. -/
structure LintResults where
  Issues : List IssueData
  deriving DecidableEq, Repr

/-- One `<error>` element of `checkstyleXML`. -/
structure CheckstyleError where
  Line : Int
  Column : Int
  Severity : String
  Message : String
  Source : String
  deriving DecidableEq, Repr

/-- One `<file>` element of `checkstyleXML`. -/
structure CheckstyleFile where
  Name : String
  Errors : List CheckstyleError
  deriving DecidableEq, Repr

/-- The struct `checkstyleXML`. -/
structure checkstyleXML where
  Files : List CheckstyleFile
  deriving DecidableEq, Repr

/-! ## `json.Unmarshal` into `lintResults` -/

/-- A JSON value as `encoding/json` scans it; a number keeps its literal. -/
inductive Json where
  | null
  | bool (b : Bool)
  | num (literal : String)
  | str (s : String)
  | arr (items : List Json)
  | obj (members : List (String × Json))

/-- The folded form `encoding/json` compares member names in: ASCII letters
    in upper case, every character above ASCII through `fold` (the least
    member of its Unicode simple-folding orbit). -/
def json.foldName (fold : Char → Char) (name : String) : String :=
  String.mk (name.data.map (fun c =>
    if c.toNat < 0x80 then
      if 'a'.toNat ≤ c.toNat ∧ c.toNat ≤ 'z'.toNat then Char.ofNat (c.toNat - 32) else c
    else fold c))

/-- Whether an object member named `key` is decoded into the struct field
    named `name`: an exact match, or else a match of the folded names. -/
def json.fieldMatches (fold : Char → Char) (name key : String) : Bool :=
  key == name || json.foldName fold key == json.foldName fold name

/-- The value of a run of decimal digits; `none` when the run is empty or
    holds another character. -/
def json.digitsValue (ds : List Char) : Option Nat :=
  if ds = [] then none
  else if ds.all (fun c => decide ('0'.toNat ≤ c.toNat ∧ c.toNat ≤ '9'.toNat)) then
    some (ds.foldl (fun acc c => acc * 10 + (c.toNat - '0'.toNat)) 0)
  else none

/-- Go `strconv.ParseInt(literal, 10, 64)` on a JSON number literal: an
    optional minus sign and decimal digits within the range of `int64`. -/
def json.parseInt64 (literal : String) : Option Int :=
  match literal.data with
  | '-' :: ds =>
    match json.digitsValue ds with
    | some n => if n ≤ 2 ^ 63 then some (-(n : Int)) else none
    | none => none
  | ds =>
    match json.digitsValue ds with
    | some n => if n < 2 ^ 63 then some (n : Int) else none
    | none => none

/-- The members of an object decoded one after the other into a struct;
    `none` as soon as a member's value does not fit its field, in which case
    `json.Unmarshal` returns an error. -/
def json.decodeMembers {σ : Type} (step : σ → String × Json → Option σ) :
    σ → List (String × Json) → Option σ
  | s, [] => some s
  | s, m :: ms =>
    match step s m with
    | none => none
    | some s1 => json.decodeMembers step s1 ms

/-- The elements of an array decoded one after the other and appended to a
    slice reset to length zero. -/
def json.decodeItems {α : Type} (one : Json → Option α) : List Json → Option (List α)
  | [] => some []
  | v :: vs =>
    match one v, json.decodeItems one vs with
    | some a, some rest => some (a :: rest)
    | _, _ => none

/-- A JSON value decoded into a `string` holding `cur`: a string is stored,
    `null` changes nothing, any other value is an `UnmarshalTypeError`. -/
def json.decodeString (cur : String) : Json → Option String
  | .str s => some s
  | .null => some cur
  | _ => none

/-- A JSON value decoded into an `int` holding `cur`. -/
def json.decodeInt (cur : Int) : Json → Option Int
  | .num literal => json.parseInt64 literal
  | .null => some cur
  | _ => none

/-- A JSON value decoded into a `[]string`: an array is decoded element by
    element, `null` gives the nil slice. -/
def json.decodeStrings : Json → Option (List String)
  | .arr items => json.decodeItems (json.decodeString "") items
  | .null => some []
  | _ => none

/-- One member of an object decoded into the `Pos` struct; a member that
    matches no field is skipped. -/
def json.decodePosMember (fold : Char → Char) (cur : Pos) (m : String × Json) : Option Pos :=
  if json.fieldMatches fold "Filename" m.1 then
    (json.decodeString cur.Filename m.2).map (fun s => { cur with Filename := s })
  else if json.fieldMatches fold "Line" m.1 then
    (json.decodeInt cur.Line m.2).map (fun n => { cur with Line := n })
  else if json.fieldMatches fold "Column" m.1 then
    (json.decodeInt cur.Column m.2).map (fun n => { cur with Column := n })
  else some cur

/-- A JSON value decoded into the `Pos` struct holding `cur`. -/
def json.decodePos (fold : Char → Char) (cur : Pos) : Json → Option Pos
  | .obj members => json.decodeMembers (json.decodePosMember fold) cur members
  | .null => some cur
  | _ => none

/-- One member of an object decoded into an element of `Issues`. -/
def json.decodeIssueMember (fold : Char → Char) (cur : IssueData) (m : String × Json) :
    Option IssueData :=
  if json.fieldMatches fold "FromLinter" m.1 then
    (json.decodeString cur.FromLinter m.2).map (fun s => { cur with FromLinter := s })
  else if json.fieldMatches fold "Text" m.1 then
    (json.decodeString cur.Text m.2).map (fun s => { cur with Text := s })
  else if json.fieldMatches fold "Severity" m.1 then
    (json.decodeString cur.Severity m.2).map (fun s => { cur with Severity := s })
  else if json.fieldMatches fold "SourceLines" m.1 then
    (json.decodeStrings m.2).map (fun l => { cur with SourceLines := l })
  else if json.fieldMatches fold "Pos" m.1 then
    (json.decodePos fold cur.Pos m.2).map (fun p => { cur with Pos := p })
  else some cur

/-- A JSON value decoded into a fresh element of `Issues`. -/
def json.decodeIssueData (fold : Char → Char) : Json → Option IssueData
  | .obj members =>
    json.decodeMembers (json.decodeIssueMember fold)
      { FromLinter := "", Text := "", Severity := "", SourceLines := [], Pos := ⟨"", 0, 0⟩ }
      members
  | .null =>
    some { FromLinter := "", Text := "", Severity := "", SourceLines := [], Pos := ⟨"", 0, 0⟩ }
  | _ => none

/-- A JSON value decoded into the field `Issues`. -/
def json.decodeIssues (fold : Char → Char) : Json → Option (List IssueData)
  | .arr items => json.decodeItems (json.decodeIssueData fold) items
  | .null => some []
  | _ => none

/-- One member of the top-level object decoded into `lintResults`: only a
    member matching the field `Issues` is decoded, every other is skipped. -/
def json.decodeLintMember (fold : Char → Char) (cur : LintResults) (m : String × Json) :
    Option LintResults :=
  if json.fieldMatches fold "Issues" m.1 then
    (json.decodeIssues fold m.2).map (fun l => { Issues := l })
  else some cur

/-- A JSON value decoded into the zero `lintResults`: an object member by
    member, `null` leaving it as it is, any other value an
    `UnmarshalTypeError`. -/
def json.decodeLintResults (fold : Char → Char) : Json → Option LintResults
  | .obj members => json.decodeMembers (json.decodeLintMember fold) { Issues := [] } members
  | .null => some { Issues := [] }
  | _ => none

/-- Go `json.Unmarshal([]byte(text), &lintResults)` as documented by
    `encoding/json`: `parse` is the scanner (`none` for a syntax error),
    `fold` the Unicode folding of member names above ASCII; `none` is a
    non-nil error. -/
def json.Unmarshal (fold : Char → Char) (parse : String → Option Json) :
    String → Option LintResults :=
  fun text =>
    match parse text with
    | none => none
    | some v => json.decodeLintResults fold v

/-! ## Output normalizers -/

/-- The function `extractJSON`: the span from the first `{` to the last `}`
    with trailing commas trimmed, or the empty string when either brace is
    missing or the last `}` precedes the first `{`. -/
def extractJSON (input : String) : String :=
  match strings.IndexAny input "\x7b", strings.LastIndexAny input "\x7d" with
  | some start, some stop =>
    if stop < start then "" else
    let jsonContent := slice input start (stop + 1)
    strings.TrimRight jsonContent ","
  | _, _ => ""

/-- The message that `processLinterOutput` filters out. -/
def ignoredText : String :=
  "File ignored because no matching configuration was supplied."

/-- One iteration of the `for _, issueData := range lintResults.Issues` loop
    of `processLinterOutput`. -/
def linterStep (fromlinter : String) (issues : List Issue) (issueData : IssueData) :
    List Issue :=
  if issueData.Text = ignoredText then issues
  else
    issues ++ [{
      Path := issueData.Pos.Filename
      Line := issueData.Pos.Line
      Column := issueData.Pos.Column
      Severity := issueData.Severity
      Title := fromlinter ++ " Issue: " ++ issueData.Text
      Description := issueData.Text
      Suggestion := "Consider fixing this issue based on the linter's feedback."
      Source := fromlinter }]

/-- The function `processLinterOutput`.  `unmarshal` is `json.Unmarshal` into
    `lintResults`; `none` is a non-nil error. -/
def processLinterOutput (unmarshal : String → Option LintResults)
    (output fromlinter : String) : List Issue :=
  let output := strings.TrimSpace output
  if output = "" then []
  else
    match strings.IndexAny output "\x7b[" with
    | none => []
    | some jsonStart =>
      let output := sliceFrom output jsonStart
      let jsonoutput := extractJSON output
      match unmarshal jsonoutput with
      | none => []
      | some lintResults => lintResults.Issues.foldl (linterStep fromlinter) []

/-- One iteration of the inner `for _, err := range file.Errors` loop of
    `processCheckstyleOutput`. -/
def checkstyleErrorStep (table : Char → Char) (file : CheckstyleFile)
    (issues : List Issue) (err : CheckstyleError) : List Issue :=
  issues ++ [{
    Path := file.Name
    Line := err.Line
    Column := err.Column
    Severity := strings.ToLower table err.Severity
    Title := "Checkstyle Issue: " ++ filepath.Base err.Source
    Description := err.Message
    Suggestion := "Fix according to Checkstyle rule."
    Source := "Checkstyle" }]

/-- One iteration of the outer `for _, file := range result.Files` loop of
    `processCheckstyleOutput`. -/
def checkstyleFileStep (table : Char → Char) (issues : List Issue)
    (file : CheckstyleFile) : List Issue :=
  file.Errors.foldl (checkstyleErrorStep table file) issues

/-- The function `processCheckstyleOutput`.  `unmarshal` is `xml.Unmarshal`
    into `checkstyleXML`; `none` is a non-nil error.  `table` is the case
    table behind `strings.ToLower`. -/
def processCheckstyleOutput (unmarshal : String → Option checkstyleXML)
    (table : Char → Char) (output : String) : List Issue :=
  let output := strings.TrimSpace output
  if output = "" then []
  else
    match unmarshal output with
    | none => []
    | some result => result.Files.foldl (checkstyleFileStep table) []

/-! ## Orchestration: `Linter.Analyze` -/

/-- The scratch file system: `(path, content)` bindings, the latest write
    first. -/
abbrev FS := List (String × String)

/-- The `(string, error)` pair a tool runner returns; `err = none` is a nil
    error. -/
structure RunResult where
  output : String
  err : Option String
  deriving DecidableEq, Repr

/-- A tool runner (`RunESLint`, `runGolangCILint`, `RunPythonLinter`,
    `RunJavaLinter`): from the file system, the directory and the file list
    to the returned pair and the file system it leaves behind.  What the
    child processes do is decided outside the program. -/
abbrev Runner := FS → String → List String → RunResult × FS

/-- The four external analyzers. -/
inductive Tool
  | ESLint
  | GolangCILint
  | Flake8
  | Checkstyle
  deriving DecidableEq, Repr

/-- One invocation of a tool runner: its arguments and what it returned. -/
structure Call where
  tool : Tool
  dir : String
  files : List String
  result : RunResult
  deriving DecidableEq, Repr

/-- Everything `Analyze` obtains from outside the program. -/
structure Env where
  /-- Result of `ioutil.TempDir("", "keploy-review-")`. -/
  TempDir : Except String String
  /-- Go `filepath.Join` of a directory and one element. -/
  Join : String → String → String
  /-- Error of `ioutil.WriteFile(path, content, 0644)` on a file system;
      `none` is success. -/
  WriteFile : FS → String → String → Option String
  RunESLint : Runner
  runGolangCILint : Runner
  RunPythonLinter : Runner
  RunJavaLinter : Runner
  /-- Go `json.Unmarshal` into `lintResults`. -/
  jsonUnmarshal : String → Option LintResults
  /-- Go `xml.Unmarshal` into `checkstyleXML`. -/
  xmlUnmarshal : String → Option checkstyleXML
  /-- Case table of `unicode.ToLower` above ASCII. -/
  lowerTable : Char → Char

/-- The local variables of `Analyze` that the staging loop updates, with the
    scratch file system. -/
structure Staging where
  goFiles : List String
  tsFiles : List String
  pyFiles : List String
  javaFiles : List String
  hasGo : Bool
  hasTS : Bool
  hasPython : Bool
  hasJava : Bool
  fs : FS
  deriving DecidableEq, Repr

/-- The state before the first iteration of the staging loop. -/
def Staging.init (fs : FS) : Staging :=
  { goFiles := [], tsFiles := [], pyFiles := [], javaFiles := [],
    hasGo := false, hasTS := false, hasPython := false, hasJava := false, fs := fs }

/-- The `switch` of the staging loop: the updated lists and flags, or `none`
    for the `default: continue` branch. -/
def stageSwitch (st : Staging) (path filePath : String) : Option Staging :=
  if strings.HasSuffix path ".go" then
    some { st with hasGo := true, goFiles := st.goFiles ++ [filePath] }
  else if strings.HasSuffix path ".ts" then
    some { st with hasTS := true, tsFiles := st.tsFiles ++ [filePath] }
  else if strings.HasSuffix path ".py" then
    some { st with hasPython := true, pyFiles := st.pyFiles ++ [filePath] }
  else if strings.HasSuffix path ".java" then
    some { st with hasJava := true, javaFiles := st.javaFiles ++ [filePath] }
  else none

/-- One iteration of `for _, file := range files`: an error carries the
    message `Analyze` returns and the state reached. -/
def stageFile (env : Env) (tempDir : String) (st : Staging) (file : File) :
    Except (String × Staging) Staging :=
  let filePath := env.Join tempDir (filepath.Base file.Path)
  match stageSwitch st file.Path filePath with
  | none => .ok st
  | some st1 =>
    match env.WriteFile st1.fs filePath file.Content with
    | some e => .error ("failed to write file " ++ file.Path ++ ": " ++ e, st1)
    | none => .ok { st1 with fs := (filePath, file.Content) :: st1.fs }

/-- The staging loop of `Analyze`; it stops at the first failed write. -/
def stageLoop (env : Env) (tempDir : String) :
    List File → Staging → Except (String × Staging) Staging
  | [], st => .ok st
  | file :: rest, st =>
    match stageFile env tempDir st file with
    | .error e => .error e
    | .ok st1 => stageLoop env tempDir rest st1

/-- The four `if !hasX` blocks of `Analyze`: each missing language logs a
    line and overwrites the package variable `Comment`. -/
def advise (st : Staging) (comment : String) (logs : List String) :
    String × List String :=
  let a1 := if !st.hasGo then
      ("Add a Go code file to your PR", logs ++ ["No Go files detected in PR"])
    else (comment, logs)
  let a2 := if !st.hasTS then
      ("Add a TypeScript code file to your PR", a1.2 ++ ["No TypeScript files detected in PR"])
    else a1
  let a3 := if !st.hasPython then
      ("Add a Python code file to your PR", a2.2 ++ ["No Python files detected in PR"])
    else a2
  if !st.hasJava then
    ("Add a Java code file to your PR", a3.2 ++ ["No Java files detected in PR"])
  else a3

/-- The state threaded through the four tool blocks. -/
structure ToolState where
  issues : List Issue
  calls : List Call
  fs : FS
  deriving DecidableEq, Repr

/-- One `if len(xFiles) > 0 { ... }` block of `Analyze`.  A non-nil runner
    error reaches `log.Fatalf`, which logs the message and exits the
    process: the block then yields the message and the state at exit. -/
def toolBlock (runner : Runner) (tool : Tool) (what : String)
    (normalize : String → List Issue) (tempDir : String) (files : List String)
    (s : ToolState) : Except (String × ToolState) ToolState :=
  if files.length > 0 then
    let r := runner s.fs tempDir files
    let s1 : ToolState := { s with calls := s.calls ++ [⟨tool, tempDir, files, r.1⟩], fs := r.2 }
    match r.1.err with
    | some e => .error ("Error running " ++ what ++ ": " ++ e, s1)
    | none => .ok { s1 with issues := s1.issues ++ normalize r.1.output }
  else .ok s

/-- The four tool blocks of `Analyze` in source order: ESLint,
    golangci-lint, flake8, Checkstyle. -/
def toolPhase (env : Env) (tempDir : String) (st : Staging) (s0 : ToolState) :
    Except (String × ToolState) ToolState :=
  match toolBlock env.RunESLint Tool.ESLint "ESLint"
      (fun out => processLinterOutput env.jsonUnmarshal out "ESLint") tempDir st.tsFiles s0 with
  | .error e => .error e
  | .ok s1 =>
  match toolBlock env.runGolangCILint Tool.GolangCILint "golangci-lint"
      (fun out => processLinterOutput env.jsonUnmarshal out "GolangCILint") tempDir st.goFiles s1 with
  | .error e => .error e
  | .ok s2 =>
  match toolBlock env.RunPythonLinter Tool.Flake8 "flake8"
      (fun out => processLinterOutput env.jsonUnmarshal out "Flake8") tempDir st.pyFiles s2 with
  | .error e => .error e
  | .ok s3 =>
  toolBlock env.RunJavaLinter Tool.Checkstyle "Checkstyle"
      (fun out => processCheckstyleOutput env.xmlUnmarshal env.lowerTable out) tempDir st.javaFiles s3

/-- How a call of `Analyze` ends. -/
inductive Outcome
  /-- The call returns `(issues, err)`; `err = none` is a nil error. -/
  | returned (issues : List Issue) (err : Option String)
  /-- The call reaches `log.Fatalf`: the process exits and nothing is returned. -/
  | fatal (msg : String)
  deriving DecidableEq, Repr

/-- What one call of `Analyze` does. -/
structure Run where
  outcome : Outcome
  /-- The tool runners invoked, in order. -/
  calls : List Call
  /-- The package variable `Comment` at the end. -/
  Comment : String
  /-- The lines `Analyze` itself passes to `log.Println`. -/
  logs : List String
  /-- The scratch file system at the end, before any removal. -/
  fs : FS
  /-- Whether the deferred `os.RemoveAll(tempDir)` ran. -/
  tempDirRemoved : Bool
  deriving DecidableEq, Repr

/-- The method `Linter.Analyze`, started with the package variable `Comment`
    holding `comment` and the file system `fs`. -/
def Analyze (env : Env) (comment : String) (fs : FS) (files : List File) : Run :=
  match env.TempDir with
  | .error e =>
    { outcome := .returned [] (some ("failed to create temp directory: " ++ e)),
      calls := [], Comment := comment, logs := [], fs := fs, tempDirRemoved := false }
  | .ok tempDir =>
    match stageLoop env tempDir files (Staging.init fs) with
    | .error (msg, st) =>
      { outcome := .returned [] (some msg),
        calls := [], Comment := comment, logs := [], fs := st.fs, tempDirRemoved := true }
    | .ok st =>
      if !st.hasGo && !st.hasTS && !st.hasPython && !st.hasJava then
        { outcome := .returned [] none, calls := [],
          Comment := "Add either a Go or TypeScript or python or java file to your PR",
          logs := ["No Go or TypeScript or python or java files detected in PR"],
          fs := st.fs, tempDirRemoved := true }
      else
        let adv := advise st comment []
        match toolPhase env tempDir st { issues := [], calls := [], fs := st.fs } with
        | .error (msg, s) =>
          { outcome := .fatal msg, calls := s.calls, Comment := adv.1,
            logs := adv.2 ++ [msg], fs := s.fs, tempDirRemoved := false }
        | .ok s =>
          { outcome := .returned s.issues none, calls := s.calls, Comment := adv.1,
            logs := adv.2, fs := s.fs, tempDirRemoved := true }

/-! ## The tool runners -/

/-- What a child process run to completion leaves behind: its combined
    standard output and error, the error of `cmd.Run` (`none` is nil), and
    the file system. -/
structure ExecResult where
  output : String
  err : Option String
  fs : FS
  deriving DecidableEq, Repr

/-- The operating system as the tool runners see it. -/
structure Sys where
  /-- Go `filepath.Join` of a directory and one element. -/
  Join : String → String → String
  /-- Error of `exec.LookPath(file)`; `none` when the binary is found. -/
  LookPath : String → Option String
  /-- Error of `os.WriteFile(path, content, 0644)`; `none` is success. -/
  WriteFile : FS → String → String → Option String
  /-- The command `exec.CommandContext(ctx, argv...)` run to completion with
      `cmd.Dir` (`none` when it is not set). -/
  Exec : FS → Option String → List String → ExecResult
  /-- Error of `json.Unmarshal` into `[]map[string]interface{}`; `none` when
      the text is a JSON array of objects. -/
  jsonArrayErr : String → Option String

/-- The test `os.Stat(path)` followed by `os.IsNotExist(err)`: true exactly
    when the workspace has no file at `path`.  A file of the workspace can
    always be examined; other failures of `os.Stat` are not part of the
    model. -/
def notExist (fs : FS) (path : String) : Bool :=
  (fs.lookup path).isNone

/-- The literal `configContent` of `runGolangCILint`. -/
def golangciConfig : String :=
  "\nversion: 2 \nlinters:\n  enable:\n    - govet\n    - staticcheck\n    - errcheck\n    - ineffassign\n    - unused\n    - misspell\n    - gocritic\n"

/-- The literal `configContent` of `RunESLint`. -/
def eslintConfig : String :=
  "\n\t\texport default [\n  \x7b\n    ignores: [],\n    files: [\"**/*.ts\", \"**/*.tsx\", \"**/*.js\", \"**/*.jsx\"],\n    languageOptions: \x7b\n      parserOptions: \x7b\n        ecmaVersion: \"latest\",\n        sourceType: \"module\",\n      \x7d,\n    \x7d,\n    rules: \x7b\n      \"no-unused-vars\": \"warn\",\n      \"no-console\": \"warn\",\n    \x7d,\n  \x7d,\n];\n"

/-- The literal `packageContent` of `RunESLint`. -/
def packageContent : String :=
  "\x7b\"type\": \"module\"\x7d"

/-- The literal `configContent` of `RunPythonLinter`. -/
def flake8Config : String :=
  "[flake8]\nmax-line-length = 120\nextend-ignore = E203, W503\n"

/-- The literal `defaultConfig` of `RunJavaLinter`. -/
def checkstyleConfig : String :=
  "<?xml version=\"1.0\"?>\n<!DOCTYPE module PUBLIC\n    \"-//Checkstyle//DTD Checkstyle Configuration 1.3//EN\"\n    \"https://checkstyle.org/dtds/configuration_1_3.dtd\">\n<module name=\"Checker\">\n  <module name=\"TreeWalker\">\n    <module name=\"AvoidStarImport\"/>\n    <module name=\"ConstantName\"/>\n    <module name=\"UnusedImports\"/>\n  </module>\n</module>"

/-- The method `runGolangCILint`. -/
def runGolangCILint (sys : Sys) : Runner := fun fs dir files =>
  match sys.LookPath "/snap/bin/golangci-lint" with
  | some _ => (⟨"", none⟩, fs)
  | none =>
    let configPath := sys.Join dir ".golangci.yml"
    match sys.WriteFile fs configPath golangciConfig with
    | some _ => (⟨"", none⟩, fs)
    | none =>
      let fs1 : FS := (configPath, golangciConfig) :: fs
      let cmdArgs := ["/snap/bin/golangci-lint", "run", "--config", configPath,
        "--output.json.path", "stdout"] ++ files
      let r := sys.Exec fs1 none cmdArgs
      (⟨r.output, none⟩, r.fs)

/-- The guarded write of `RunESLint` and `RunJavaLinter`: the default is
    written only when `os.Stat` reports that the file does not exist. -/
def writeIfAbsent (sys : Sys) (fs : FS) (path content : String) : Except String FS :=
  if notExist fs path then
    match sys.WriteFile fs path content with
    | some e => .error e
    | none => .ok ((path, content) :: fs)
  else .ok fs

/-- The method `RunESLint`. -/
def RunESLint (sys : Sys) : Runner := fun fs dir files =>
  if files.length = 0 then (⟨"", some "no files provided for ESLint"⟩, fs)
  else
    let configPath := sys.Join dir "eslint.config.js"
    match writeIfAbsent sys fs configPath eslintConfig with
    | .error e => (⟨"", some ("failed to create ESLint config file: " ++ e)⟩, fs)
    | .ok fs1 =>
      let packagePath := sys.Join dir "package.json"
      match writeIfAbsent sys fs1 packagePath packageContent with
      | .error e => (⟨"", some ("failed to create package.json: " ++ e)⟩, fs1)
      | .ok fs2 =>
        let check := sys.Exec fs2 (some dir) ["npm", "list", "@eslint/js"]
        let installed : Except (String × FS) FS :=
          match check.err with
          | none => .ok check.fs
          | some _ =>
            let install := sys.Exec check.fs (some dir)
              ["npm", "install", "--save-dev", "@eslint/js"]
            match install.err with
            | some e => .error (e, install.fs)
            | none => .ok install.fs
        match installed with
        | .error (e, fs3) =>
          (⟨"", some ("failed to install ESLint dependencies: " ++ e)⟩, fs3)
        | .ok fs3 =>
          let args := ["--format", "json", "--config", configPath] ++ files
          let r := sys.Exec fs3 (some dir) (["npx"] ++ (["eslint"] ++ args))
          match sys.jsonArrayErr r.output with
          | some jsonErr =>
            (⟨"", some ("invalid ESLint JSON output: " ++ jsonErr ++ "\nOutput: " ++ r.output)⟩,
              r.fs)
          | none => (⟨r.output, none⟩, r.fs)

/-- The method `RunPythonLinter`. -/
def RunPythonLinter (sys : Sys) : Runner := fun fs dir files =>
  if files.length = 0 then (⟨"", some "no Python files provided for linting"⟩, fs)
  else
    match sys.LookPath "flake8" with
    | some e => (⟨"", some ("flake8 not found in PATH: " ++ e)⟩, fs)
    | none =>
      let configPath := sys.Join dir ".flake8"
      match sys.WriteFile fs configPath flake8Config with
      | some e => (⟨"", some ("failed to write flake8 config file: " ++ e)⟩, fs)
      | none =>
        let fs1 : FS := (configPath, flake8Config) :: fs
        let args := ["--format=json", "--config", configPath] ++ files
        let r := sys.Exec fs1 (some dir) (["flake8"] ++ args)
        (⟨r.output, none⟩, r.fs)

/-- The method `RunJavaLinter`. -/
def RunJavaLinter (sys : Sys) : Runner := fun fs dir files =>
  if files.length = 0 then (⟨"", some "no Java files provided for Checkstyle"⟩, fs)
  else
    let configPath := sys.Join dir "checkstyle.xml"
    match writeIfAbsent sys fs configPath checkstyleConfig with
    | .error e => (⟨"", some ("failed to create Checkstyle config file: " ++ e)⟩, fs)
    | .ok fs1 =>
      match sys.LookPath "checkstyle" with
      | some e => (⟨"", some ("checkstyle not found in PATH: " ++ e)⟩, fs1)
      | none =>
        let args := ["-f", "xml", "-c", configPath] ++ files
        let r := sys.Exec fs1 (some dir) (["checkstyle"] ++ args)
        match r.err with
        | some e =>
          if r.output.data.length = 0 then (⟨"", some ("checkstyle failed: " ++ e)⟩, r.fs)
          else (⟨r.output, none⟩, r.fs)
        | none => (⟨r.output, none⟩, r.fs)

/-- The environment of `Analyze` in which the four runners are the methods
    of the source running on `sys`. -/
def Sys.env (sys : Sys) (tempDir : Except String String)
    (jsonUnmarshal : String → Option LintResults)
    (xmlUnmarshal : String → Option checkstyleXML) (lowerTable : Char → Char) : Env :=
  { TempDir := tempDir
    Join := sys.Join
    WriteFile := sys.WriteFile
    RunESLint := RunESLint sys
    runGolangCILint := runGolangCILint sys
    RunPythonLinter := RunPythonLinter sys
    RunJavaLinter := RunJavaLinter sys
    jsonUnmarshal := jsonUnmarshal
    xmlUnmarshal := xmlUnmarshal
    lowerTable := lowerTable }

/-- The text `processLinterOutput` hands to `json.Unmarshal` (its local
    `jsonoutput`), or `none` when it returns before decoding. -/
def jsonPayload (output : String) : Option String :=
  let output := strings.TrimSpace output
  if output = "" then none
  else
    match strings.IndexAny output "\x7b[" with
    | none => none
    | some jsonStart => some (extractJSON (sliceFrom output jsonStart))

/-! ## `initializePRContext` (`main.go`) -/

/-- How a call ends in Go: with its return value, or in the run-time panic
    of an index expression `parts[index]` on a slice of `length` elements. -/
inductive GoResult (α : Type)
  | returned (value : α)
  | indexPanic (index length : Nat)
  deriving DecidableEq, Repr

/-- The function `initializePRContext` up to the reading of `prNumber`;
    `rest` is what follows (fetching the changed files and their contents,
    building the context) and gives the returned error, `none` being nil. -/
def initializePRContext (rest : String → String → String → Option String)
    (prURL : String) : GoResult (Option String) :=
  let parts := strings.Split prURL '/'
  if parts.length < 5 then
    .returned (some
      "invalid PR URL format. Expected: https://github.com/owner/repo/pull/number")
  else
    match parts[3]? with
    | none => .indexPanic 3 parts.length
    | some owner =>
      match parts[4]? with
      | none => .indexPanic 4 parts.length
      | some repo =>
        match parts[6]? with
        | none => .indexPanic 6 parts.length
        | some prNumber => .returned (rest owner repo prNumber)

/-! ## Vocabulary of the statements -/

/-- A path carries one of the four recognised suffixes. -/
def recognised (path : String) : Bool :=
  strings.HasSuffix path ".go" || strings.HasSuffix path ".ts" ||
    strings.HasSuffix path ".py" || strings.HasSuffix path ".java"

/-- The path under which the staging loop writes a file. -/
def stagedPath (env : Env) (tempDir : String) (file : File) : String :=
  env.Join tempDir (filepath.Base file.Path)

/-- The staged paths of the input files whose path ends with `suffix`. -/
def stagedWith (env : Env) (tempDir suffix : String) (files : List File) : List String :=
  (files.filter (fun f => strings.HasSuffix f.Path suffix)).map (stagedPath env tempDir)

/-- The issue `processLinterOutput` builds from one entry. -/
def linterIssue (fromlinter : String) (d : IssueData) : Issue :=
  { Path := d.Pos.Filename, Line := d.Pos.Line, Column := d.Pos.Column,
    Severity := d.Severity, Title := fromlinter ++ " Issue: " ++ d.Text,
    Description := d.Text,
    Suggestion := "Consider fixing this issue based on the linter's feedback.",
    Source := fromlinter }

/-- The issue `processCheckstyleOutput` builds from one `<error>` of `file`. -/
def checkstyleIssue (table : Char → Char) (file : CheckstyleFile) (e : CheckstyleError) :
    Issue :=
  { Path := file.Name, Line := e.Line, Column := e.Column,
    Severity := strings.ToLower table e.Severity,
    Title := "Checkstyle Issue: " ++ filepath.Base e.Source,
    Description := e.Message, Suggestion := "Fix according to Checkstyle rule.",
    Source := "Checkstyle" }

/-- The normalized issue list of one recorded call: the normalizer `Analyze`
    applies to that tool's output. -/
def normalized (env : Env) (c : Call) : List Issue :=
  match c.tool with
  | .ESLint => processLinterOutput env.jsonUnmarshal c.result.output "ESLint"
  | .GolangCILint => processLinterOutput env.jsonUnmarshal c.result.output "GolangCILint"
  | .Flake8 => processLinterOutput env.jsonUnmarshal c.result.output "Flake8"
  | .Checkstyle => processCheckstyleOutput env.xmlUnmarshal env.lowerTable c.result.output

/-- The arguments of a recorded call: which runner, on which directory,
    with which files. -/
def Call.args (c : Call) : Tool × String × List String :=
  (c.tool, c.dir, c.files)

/-- The invocation due for one language: none when it has no staged file. -/
def argsIf (tool : Tool) (dir : String) (files : List String) :
    List (Tool × String × List String) :=
  if files.length > 0 then [(tool, dir, files)] else []

/-- The invocations due for an input list, in source order: for each
    language with a staged file, its runner with that language's staged
    paths. -/
def expectedArgs (env : Env) (tempDir : String) (files : List File) :
    List (Tool × String × List String) :=
  argsIf Tool.ESLint tempDir (stagedWith env tempDir ".ts" files) ++
  argsIf Tool.GolangCILint tempDir (stagedWith env tempDir ".go" files) ++
  argsIf Tool.Flake8 tempDir (stagedWith env tempDir ".py" files) ++
  argsIf Tool.Checkstyle tempDir (stagedWith env tempDir ".java" files)

/-- What a tool block or the whole tool phase leaves behind, `due` being the
    invocations due so far: on success all of them were made without error
    and the issues are the normalized outputs in call order; on a fatal exit
    the calls made are the due ones, only the last of them failed, and no
    issue list is at stake. -/
def PhasePost (env : Env) (due : List (Tool × String × List String)) :
    Except (String × ToolState) ToolState → Prop
  | .ok s =>
    s.calls.map Call.args = due ∧ (∀ c ∈ s.calls, c.result.err = none) ∧
      s.issues = (s.calls.map (normalized env)).flatten
  | .error (_, s) =>
    s.calls.map Call.args = due ∧ (∀ c ∈ s.calls.dropLast, c.result.err = none) ∧
      ∃ c, s.calls.getLast? = some c ∧ c.result.err ≠ none

/-- The member names of a JSON object, in order; empty for other values. -/
def Json.memberNames : Json → List String
  | .obj members => members.map (fun m => m.1)
  | _ => []

/-! ## Concrete inputs -/

/-- A decoder that accepts exactly the document `doc`, decoding it to `r`. -/
def decodeOnly {α : Type} (doc : String) (r : α) : String → Option α :=
  fun s => if s = doc then some r else none

/-- Scenario A: a report whose only entry carries the ignored message. -/
def scenarioA : String :=
  "\x7b\"Issues\":[\x7b\"FromLinter\":\"x\",\"Text\":\"File ignored because no matching configuration was supplied.\",\"Severity\":\"warning\",\"Pos\":\x7b\"Filename\":\"a.go\",\"Line\":1,\"Column\":1\x7d\x7d]\x7d"

/-- Scenario A decoded into `lintResults`. -/
def scenarioAParsed : LintResults :=
  ⟨[{ FromLinter := "x",
      Text := "File ignored because no matching configuration was supplied.",
      Severity := "warning", SourceLines := [], Pos := ⟨"a.go", 1, 1⟩ }]⟩

/-- The JSON document inside `noisyReport`. -/
def noisyDoc : String :=
  "\x7b\"Issues\":[\x7b\"FromLinter\":\"unused\",\"Text\":\"var x is unused\",\"Severity\":\"Error\",\"Pos\":\x7b\"Filename\":\"a.go\",\"Line\":3,\"Column\":7\x7d\x7d,\x7b\"FromLinter\":\"x\",\"Text\":\"File ignored because no matching configuration was supplied.\",\"Severity\":\"warning\",\"Pos\":\x7b\"Filename\":\"b.go\",\"Line\":1,\"Column\":1\x7d\x7d,\x7b\"FromLinter\":\"govet\",\"Text\":\"unreachable code\",\"Severity\":\"\",\"Pos\":\x7b\"Filename\":\"c.go\",\"Line\":10,\"Column\":2\x7d\x7d]\x7d"

/-- A tool output with a log line before the JSON document and white space
    around it. -/
def noisyReport : String :=
  "  level=warning msg=\"config not found\"\n" ++ noisyDoc ++ "\n"

/-- The document `noisyDoc` decoded into `lintResults`. -/
def noisyParsed : LintResults :=
  ⟨[{ FromLinter := "unused", Text := "var x is unused", Severity := "Error",
      SourceLines := [], Pos := ⟨"a.go", 3, 7⟩ },
    { FromLinter := "x",
      Text := "File ignored because no matching configuration was supplied.",
      Severity := "warning", SourceLines := [], Pos := ⟨"b.go", 1, 1⟩ },
    { FromLinter := "govet", Text := "unreachable code", Severity := "",
      SourceLines := [], Pos := ⟨"c.go", 10, 2⟩ }]⟩

/-- A golangci-lint report with one finding whose severity is upper case. -/
def upperReport : String :=
  "\x7b\"Issues\":[\x7b\"FromLinter\":\"govet\",\"Text\":\"unreachable code\",\"Severity\":\"WARNING\",\"Pos\":\x7b\"Filename\":\"a.go\",\"Line\":3,\"Column\":7\x7d\x7d]\x7d"

/-- The report `upperReport` decoded into `lintResults`. -/
def upperParsed : LintResults :=
  ⟨[{ FromLinter := "govet", Text := "unreachable code", Severity := "WARNING",
      SourceLines := [], Pos := ⟨"a.go", 3, 7⟩ }]⟩

/-- Scenario B: a Checkstyle report with one file and one error. -/
def scenarioB : String :=
  "<?xml version=\"1.0\" encoding=\"UTF-8\"?>\n<checkstyle version=\"10.12\">\n<file name=\"Foo.java\"><error line=\"10\" column=\"2\" severity=\"error\" message=\"bad\" source=\"com.pkg.RuleX\"/></file>\n</checkstyle>\n"

/-- Scenario B decoded into `checkstyleXML`. -/
def scenarioBParsed : checkstyleXML :=
  ⟨[⟨"Foo.java", [⟨10, 2, "error", "bad", "com.pkg.RuleX"⟩]⟩]⟩

/-- A Checkstyle report with two files, the first holding two errors. -/
def twoFileReport : String :=
  "<checkstyle version=\"10.12\"><file name=\"A.java\"><error line=\"1\" column=\"8\" severity=\"WARNING\" message=\"star import\" source=\"imports.AvoidStarImportCheck\"/><error line=\"4\" column=\"5\" severity=\"Error\" message=\"bad name\" source=\"naming.ConstantNameCheck\"/></file><file name=\"B.java\"><error line=\"2\" column=\"1\" severity=\"info\" message=\"unused import\" source=\"imports.UnusedImportsCheck\"/></file></checkstyle>"

/-- The report `twoFileReport` decoded into `checkstyleXML`. -/
def twoFileParsed : checkstyleXML :=
  ⟨[⟨"A.java", [⟨1, 8, "WARNING", "star import", "imports.AvoidStarImportCheck"⟩,
                ⟨4, 5, "Error", "bad name", "naming.ConstantNameCheck"⟩]⟩,
    ⟨"B.java", [⟨2, 1, "info", "unused import", "imports.UnusedImportsCheck"⟩]⟩]⟩

/-- An environment in which the temporary directory is created, every
    write succeeds, ESLint prints an empty array, golangci-lint prints
    `noisyReport`, flake8 prints nothing and Checkstyle prints
    `twoFileReport`; no runner reports an error. -/
def sampleEnv : Env :=
  { TempDir := .ok "/tmp/keploy-review-1"
    Join := fun d b => d ++ "/" ++ b
    WriteFile := fun _ _ _ => none
    RunESLint := fun fs _ _ => (⟨"[]", none⟩, fs)
    runGolangCILint := fun fs _ _ => (⟨noisyReport, none⟩, fs)
    RunPythonLinter := fun fs _ _ => (⟨"", none⟩, fs)
    RunJavaLinter := fun fs _ _ => (⟨twoFileReport, none⟩, fs)
    jsonUnmarshal := decodeOnly noisyDoc noisyParsed
    xmlUnmarshal := decodeOnly twoFileReport twoFileParsed
    lowerTable := id }

/-- The environment `sampleEnv` with an ESLint whose output is not a JSON
    array, which `RunESLint` reports as an error. -/
def failingEnv : Env :=
  { sampleEnv with
    RunESLint := fun fs _ _ => (⟨"", some "invalid ESLint JSON output"⟩, fs) }

/-- Scenario C: one `.go` file and one file with an unknown extension. -/
def scenarioCFiles : List File :=
  [⟨"main.go", "package main"⟩, ⟨"notes.unknownext", "todo"⟩]

/-- The staging state reached on scenario C. -/
def scenarioCStaged : Staging :=
  { goFiles := ["/tmp/keploy-review-1/main.go"], tsFiles := [], pyFiles := [], javaFiles := [],
    hasGo := true, hasTS := false, hasPython := false, hasJava := false,
    fs := [("/tmp/keploy-review-1/main.go", "package main")] }

/-- Files of all four languages among files that are not recognised. -/
def mixedFiles : List File :=
  [⟨"cmd/main.go", "package main"⟩, ⟨"A.GO", "x"⟩, ⟨"web/app.tsx", "x"⟩,
   ⟨"web/util.js", "x"⟩, ⟨"web/api.ts", "export \x7b\x7d"⟩, ⟨"tool.py", "pass"⟩,
   ⟨"src/Foo.java", "class Foo \x7b\x7d"⟩, ⟨"README.md", "x"⟩, ⟨"pkg/util.go", "package pkg"⟩]

/-- The staging state reached on `mixedFiles`. -/
def mixedStaged : Staging :=
  { goFiles := ["/tmp/keploy-review-1/main.go", "/tmp/keploy-review-1/util.go"],
    tsFiles := ["/tmp/keploy-review-1/api.ts"],
    pyFiles := ["/tmp/keploy-review-1/tool.py"],
    javaFiles := ["/tmp/keploy-review-1/Foo.java"],
    hasGo := true, hasTS := true, hasPython := true, hasJava := true,
    fs := [("/tmp/keploy-review-1/util.go", "package pkg"),
           ("/tmp/keploy-review-1/Foo.java", "class Foo \x7b\x7d"),
           ("/tmp/keploy-review-1/tool.py", "pass"),
           ("/tmp/keploy-review-1/api.ts", "export \x7b\x7d"),
           ("/tmp/keploy-review-1/main.go", "package main")] }

/-- Files none of which is recognised. -/
def unknownFiles : List File :=
  [⟨"README.md", "x"⟩, ⟨"A.GO", "x"⟩, ⟨"web/app.tsx", "x"⟩, ⟨"web/util.js", "x"⟩]

/-- One TypeScript file followed by one Go file. -/
def tsAndGoFiles : List File :=
  [⟨"web/api.ts", "export \x7b\x7d"⟩, ⟨"main.go", "package main"⟩]

/-- The staging state reached on `tsAndGoFiles`. -/
def tsAndGoStaged : Staging :=
  { goFiles := ["/tmp/keploy-review-1/main.go"], tsFiles := ["/tmp/keploy-review-1/api.ts"],
    pyFiles := [], javaFiles := [],
    hasGo := true, hasTS := true, hasPython := false, hasJava := false,
    fs := [("/tmp/keploy-review-1/main.go", "package main"),
           ("/tmp/keploy-review-1/api.ts", "export \x7b\x7d")] }

/-- A machine on which every binary is found and every write succeeds;
    ESLint prints an empty array, golangci-lint prints `noisyReport` and
    exits with status 1, Checkstyle prints `twoFileReport`, every other
    command prints nothing; no command touches the file system. -/
def sampleSys : Sys :=
  { Join := fun d b => d ++ "/" ++ b
    LookPath := fun _ => none
    WriteFile := fun _ _ _ => none
    Exec := fun fs _ argv =>
      if argv.head? = some "npx" then ⟨"[]", none, fs⟩
      else if argv.head? = some "/snap/bin/golangci-lint" then
        ⟨noisyReport, some "exit status 1", fs⟩
      else if argv.head? = some "checkstyle" then ⟨twoFileReport, none, fs⟩
      else ⟨"", none, fs⟩
    jsonArrayErr := fun s =>
      if s = "[]" then none else some "invalid character looking for beginning of value" }

/-- The machine `sampleSys` without `flake8` on the search path. -/
def noFlake8Sys : Sys :=
  { sampleSys with
    LookPath := fun f => if f = "flake8" then some "executable file not found in $PATH" else none }

/-- The machine `sampleSys` without `/snap/bin/golangci-lint`. -/
def noGolangciSys : Sys :=
  { sampleSys with
    LookPath := fun f =>
      if f = "/snap/bin/golangci-lint" then some "no such file or directory" else none }

/-- The machine `sampleSys` on which ESLint prints a plain error text
    instead of JSON. -/
def brokenESLintSys : Sys :=
  { sampleSys with
    Exec := fun fs dir argv =>
      if argv.head? = some "npx" then ⟨"Oops! Something went wrong! :(", some "exit status 2", fs⟩
      else sampleSys.Exec fs dir argv }

/-- The environment of `Analyze` on the machine `sys`, with the decoders of
    `sampleEnv`. -/
def machineEnv (sys : Sys) : Env :=
  sys.env (.ok "/tmp/keploy-review-1") (decodeOnly noisyDoc noisyParsed)
    (decodeOnly twoFileReport twoFileParsed) id

/-- One Go file followed by one Python file. -/
def goAndPyFiles : List File :=
  [⟨"main.go", "package main"⟩, ⟨"tool.py", "pass"⟩]

/-- A workspace in which all five configuration files already exist with
    contents of the caller. -/
def configuredFS : FS :=
  [("/w/.golangci.yml", "linters:\n  disable-all: true\n"),
   ("/w/eslint.config.js", "export default [];\n"),
   ("/w/package.json", "\x7b\"type\": \"commonjs\"\x7d"),
   ("/w/.flake8", "[flake8]\nmax-line-length = 80\n"),
   ("/w/checkstyle.xml", "<module name=\"Checker\"/>")]

/-- Whether no input file was staged for the language with `suffix`. -/
def noneStaged (env : Env) (tempDir suffix : String) (files : List File) : Bool :=
  (stagedWith env tempDir suffix files).isEmpty

/-- The advisory lines `Analyze` logs, given for each language whether it has
    no staged file: the combined line when all four are missing, otherwise
    one line per missing language in the order Go, TypeScript, Python, Java. -/
def advisoryLines (noGo noTS noPython noJava : Bool) : List String :=
  if noGo && noTS && noPython && noJava then
    ["No Go or TypeScript or python or java files detected in PR"]
  else
    (if noGo then ["No Go files detected in PR"] else []) ++
    (if noTS then ["No TypeScript files detected in PR"] else []) ++
    (if noPython then ["No Python files detected in PR"] else []) ++
    (if noJava then ["No Java files detected in PR"] else [])

/-- The value `Analyze` leaves in the package variable `Comment`, given for
    each language whether it has no staged file and the previous value. -/
def advisoryComment (noGo noTS noPython noJava : Bool) (previous : String) : String :=
  if noGo && noTS && noPython && noJava then
    "Add either a Go or TypeScript or python or java file to your PR"
  else if noJava then "Add a Java code file to your PR"
  else if noPython then "Add a Python code file to your PR"
  else if noTS then "Add a TypeScript code file to your PR"
  else if noGo then "Add a Go code file to your PR"
  else previous

/-- The three canonical severity values. -/
def canonicalSeverities : List String :=
  ["info", "warning", "error"]

/-- A Checkstyle report whose only error has the severity `ignore`. -/
def ignoreReport : String :=
  "<checkstyle version=\"10.12\"><file name=\"A.java\"><error line=\"1\" column=\"1\" severity=\"ignore\" message=\"tab character\" source=\"whitespace.FileTabCharacterCheck\"/></file></checkstyle>"

/-- The report `ignoreReport` decoded into `checkstyleXML`. -/
def ignoreParsed : checkstyleXML :=
  ⟨[⟨"A.java", [⟨1, 1, "ignore", "tab character", "whitespace.FileTabCharacterCheck"⟩]⟩]⟩

/-- A report of ESLint in its own format: a top-level JSON array. -/
def arrayReport : String :=
  "[\x7b\"filePath\":\"/w/api.ts\",\"messages\":[],\"errorCount\":0\x7d]"

/-- An issue list after a log line that opens with a square bracket. -/
def bracketLogReport : String :=
  "[INFO] analysis done\n\x7b\"Issues\":[]\x7d"

/-- An issue list with a comma before its closing brace. -/
def trailingCommaReport : String :=
  "\x7b\"Issues\":[],\x7d"

/-- One Go file. -/
def goOnlyFiles : List File :=
  [⟨"main.go", "package main"⟩]

/-- One Python file. -/
def pyOnlyFiles : List File :=
  [⟨"tool.py", "pass"⟩]

/-- Two Go files with the same base name among other files. -/
def collidingFiles : List File :=
  [⟨"cmd/util.go", "package main"⟩, ⟨"README.md", "x"⟩, ⟨"pkg/util.go", "package pkg"⟩,
   ⟨"tool.py", "pass"⟩]

/-- The staging state reached on `collidingFiles`. -/
def collidingStaged : Staging :=
  { goFiles := ["/tmp/keploy-review-1/util.go", "/tmp/keploy-review-1/util.go"],
    tsFiles := [], pyFiles := ["/tmp/keploy-review-1/tool.py"], javaFiles := [],
    hasGo := true, hasTS := false, hasPython := true, hasJava := false,
    fs := [("/tmp/keploy-review-1/tool.py", "pass"),
           ("/tmp/keploy-review-1/util.go", "package pkg"),
           ("/tmp/keploy-review-1/util.go", "package main")] }

/-- The only object of `eslintReport`. -/
def eslintObject : String :=
  "\x7b\"filePath\":\"/tmp/keploy-review-1/api.ts\",\"messages\":[\x7b\"ruleId\":\"no-console\",\"severity\":1,\"message\":\"Unexpected console statement.\",\"line\":2,\"column\":1\x7d,\x7b\"ruleId\":\"no-unused-vars\",\"severity\":1,\"message\":\"x is defined but never used.\",\"line\":1,\"column\":7\x7d],\"errorCount\":0,\"warningCount\":2\x7d"

/-- A report of ESLint in its own format for one file with two findings. -/
def eslintReport : String :=
  "[" ++ eslintObject ++ "]"

/-- A report of flake8-json for one file with one finding. -/
def flake8Report : String :=
  "\x7b\"./tool.py\":[\x7b\"code\":\"E501\",\"filename\":\"./tool.py\",\"line_number\":1,\"column_number\":121,\"text\":\"line too long (130 > 120 characters)\",\"physical_line\":\"x = 1\"\x7d]\x7d"

/-- A scanner that accepts exactly the listed documents, with the values
    they denote. -/
def parseOnly (docs : List (String × Json)) : String → Option Json :=
  fun s => docs.lookup s

/-- An issue list under the member name `issues`, in lower case. -/
def lowercaseReport : String :=
  "\x7b\"issues\":[\x7b\"FromLinter\":\"govet\",\"Text\":\"unreachable code\",\"Severity\":\"warning\",\"Pos\":\x7b\"Filename\":\"a.go\",\"Line\":3,\"Column\":7\x7d\x7d]\x7d"

/-- The value `lowercaseReport` denotes. -/
def lowercaseJson : Json :=
  .obj [("issues", .arr [.obj [("FromLinter", .str "govet"), ("Text", .str "unreachable code"),
    ("Severity", .str "warning"),
    ("Pos", .obj [("Filename", .str "a.go"), ("Line", .num "3"), ("Column", .num "7")])]])]

/-- The value `eslintObject` denotes. -/
def eslintJson : Json :=
  .obj [("filePath", .str "/tmp/keploy-review-1/api.ts"),
    ("messages", .arr [
      .obj [("ruleId", .str "no-console"), ("severity", .num "1"),
        ("message", .str "Unexpected console statement."), ("line", .num "2"),
        ("column", .num "1")],
      .obj [("ruleId", .str "no-unused-vars"), ("severity", .num "1"),
        ("message", .str "x is defined but never used."), ("line", .num "1"),
        ("column", .num "7")]]),
    ("errorCount", .num "0"), ("warningCount", .num "2")]

/-- The value `flake8Report` denotes. -/
def flake8Json : Json :=
  .obj [("./tool.py", .arr [.obj [("code", .str "E501"), ("filename", .str "./tool.py"),
    ("line_number", .num "1"), ("column_number", .num "121"),
    ("text", .str "line too long (130 > 120 characters)"),
    ("physical_line", .str "x = 1")]])]

/-- The value `noisyDoc` denotes. -/
def noisyJson : Json :=
  .obj [("Issues", .arr [
    .obj [("FromLinter", .str "unused"), ("Text", .str "var x is unused"),
      ("Severity", .str "Error"),
      ("Pos", .obj [("Filename", .str "a.go"), ("Line", .num "3"), ("Column", .num "7")])],
    .obj [("FromLinter", .str "x"),
      ("Text", .str "File ignored because no matching configuration was supplied."),
      ("Severity", .str "warning"),
      ("Pos", .obj [("Filename", .str "b.go"), ("Line", .num "1"), ("Column", .num "1")])],
    .obj [("FromLinter", .str "govet"), ("Text", .str "unreachable code"),
      ("Severity", .str ""),
      ("Pos", .obj [("Filename", .str "c.go"), ("Line", .num "10"), ("Column", .num "2")])]])]

/-- The scanner of the documents used below. -/
def sampleParse : String → Option Json :=
  parseOnly [(eslintObject, eslintJson), (flake8Report, flake8Json),
    (lowercaseReport, lowercaseJson), (noisyDoc, noisyJson)]

/-- The machine `sampleSys` on which ESLint prints `eslintReport` and flake8
    prints `flake8Report`. -/
def nativeFormatSys : Sys :=
  { sampleSys with
    Exec := fun fs dir argv =>
      if argv.head? = some "npx" then ⟨eslintReport, some "exit status 1", fs⟩
      else if argv.head? = some "flake8" then ⟨flake8Report, some "exit status 1", fs⟩
      else sampleSys.Exec fs dir argv
    jsonArrayErr := fun s =>
      if s = eslintReport then none
      else some "invalid character looking for beginning of value" }

/-- One TypeScript file followed by one Python file. -/
def tsAndPyFiles : List File :=
  [⟨"web/api.ts", "const x = 1;\nconsole.log(1);\n"⟩, ⟨"tool.py", "x = 1"⟩]

/-! ## Lemmas on the library routines and the loops -/

open strings

theorem indexAnyChars_getElem (chars : List Char) :
    ∀ (l : List Char) (i : Nat), indexAnyChars chars l = some i →
      ∃ c, l[i]? = some c ∧ c ∈ chars := by
  intro l
  induction l with
  | nil => intro i h; simp [indexAnyChars] at h
  | cons a as ih =>
    intro i h
    unfold indexAnyChars at h
    by_cases ha : a ∈ chars
    · simp only [ha, if_true, Option.some.injEq] at h
      subst h
      exact ⟨a, by simp, ha⟩
    · simp only [ha, if_false, Option.map_eq_some'] at h
      obtain ⟨k, hk, rfl⟩ := h
      obtain ⟨c, hc, hmem⟩ := ih k hk
      exact ⟨c, by simpa using hc, hmem⟩

theorem lastIndexAnyChars_getElem (chars : List Char) :
    ∀ (l : List Char) (j : Nat), lastIndexAnyChars chars l = some j →
      ∃ c, l[j]? = some c ∧ c ∈ chars := by
  intro l
  induction l with
  | nil => intro j h; simp [lastIndexAnyChars] at h
  | cons a as ih =>
    intro j h
    unfold lastIndexAnyChars at h
    cases hr : lastIndexAnyChars chars as with
    | some k =>
      simp only [hr, Option.some.injEq] at h
      subst h
      obtain ⟨c, hc, hmem⟩ := ih k hr
      exact ⟨c, by simpa using hc, hmem⟩
    | none =>
      simp only [hr] at h
      by_cases ha : a ∈ chars
      · simp only [ha, if_true, Option.some.injEq] at h
        subst h
        exact ⟨a, by simp, ha⟩
      · simp [ha] at h

theorem lastIndexAnyChars_concat (chars : List Char) (x : Char) (hx : x ∈ chars) :
    ∀ l : List Char, lastIndexAnyChars chars (l ++ [x]) = some l.length := by
  intro l
  induction l with
  | nil => simp [lastIndexAnyChars, hx]
  | cons a as ih => simp [lastIndexAnyChars, ih]

theorem indexAnyChars_cons_mem (chars : List Char) (a : Char) (l : List Char)
    (ha : a ∈ chars) : indexAnyChars chars (a :: l) = some 0 := by
  simp [indexAnyChars, ha]

/-- A text that opens with `{` and closes with `}` is returned unchanged. -/
theorem extractJSON_braced (s : String) (h1 : s.data.head? = some '\x7b')
    (h2 : s.data.getLast? = some '\x7d') : extractJSON s = s := by
  obtain ⟨l⟩ := s
  simp only at h1 h2
  obtain ⟨init, rfl⟩ : ∃ init, l = init ++ ['\x7d'] := by
    rcases List.eq_nil_or_concat l with h | ⟨init, b, h⟩
    · subst h; simp at h2
    · subst h
      simp at h2
      exact ⟨init, by rw [h2]; simp⟩
  have hlast : lastIndexAnyChars ['\x7d'] (init ++ ['\x7d']) = some init.length :=
    lastIndexAnyChars_concat _ _ (by simp) init
  have hfirst : indexAnyChars ['\x7b'] (init ++ ['\x7d']) = some 0 := by
    cases init with
    | nil => simp at h1
    | cons a as =>
      simp at h1
      subst h1
      exact indexAnyChars_cons_mem _ _ _ (by simp)
  have htrim : (init ++ ['\x7d']).rdropWhile (fun c => decide (c ∈ [','])) = init ++ ['\x7d'] :=
    List.rdropWhile_concat_neg _ _ _ (by decide)
  unfold extractJSON strings.IndexAny strings.LastIndexAny
  show (match indexAnyChars ['\x7b'] (init ++ ['\x7d']), lastIndexAnyChars ['\x7d'] (init ++ ['\x7d']) with
    | some start, some stop => if stop < start then "" else strings.TrimRight (slice ⟨init ++ ['\x7d']⟩ start (stop + 1)) ","
    | _, _ => "") = _
  rw [hfirst, hlast]
  simp only [Nat.not_lt_zero, if_false, slice, strings.TrimRight, List.drop_zero]
  have : List.take (init.length + 1) (init ++ ['\x7d']) = init ++ ['\x7d'] := by
    apply List.take_of_length_le; simp
  rw [this]
  show String.mk ((init ++ ['\x7d']).rdropWhile (fun c => decide (c ∈ [',']))) = _
  rw [htrim]

/-- A non-empty result of `extractJSON` opens with `{` and closes with `}`. -/
theorem extractJSON_shape (s : String) :
    extractJSON s = "" ∨
      ((extractJSON s).data.head? = some '\x7b' ∧
        (extractJSON s).data.getLast? = some '\x7d') := by
  obtain ⟨l⟩ := s
  unfold extractJSON strings.IndexAny strings.LastIndexAny
  show (match indexAnyChars ['\x7b'] l, lastIndexAnyChars ['\x7d'] l with
    | some start, some stop => if stop < start then "" else strings.TrimRight (slice ⟨l⟩ start (stop + 1)) ","
    | _, _ => "") = "" ∨ _
  cases hi : indexAnyChars ['\x7b'] l with
  | none => left; rfl
  | some i =>
    cases hj : lastIndexAnyChars ['\x7d'] l with
    | none => left; rfl
    | some j =>
      by_cases hlt : j < i
      · left; simp [hlt]
      · right
        simp only [hlt, if_false]
        obtain ⟨c, hc, hcm⟩ := indexAnyChars_getElem _ l i hi
        obtain ⟨d, hd, hdm⟩ := lastIndexAnyChars_getElem _ l j hj
        simp only [List.mem_singleton] at hcm hdm
        subst hcm; subst hdm
        have hjl : j < l.length := by
          by_contra hcon
          rw [List.getElem?_eq_none (by omega)] at hd
          exact absurd hd (by simp)
        have hhead : ((l.take (j + 1)).drop i).head? = some '\x7b' := by
          rw [List.head?_drop, List.getElem?_take_of_lt (by omega), hc]
        have hlast : ((l.take (j + 1)).drop i).getLast? = some '\x7d' := by
          rw [List.getLast?_eq_getElem?, List.getElem?_drop]
          have hlen : ((l.take (j + 1)).drop i).length = j + 1 - i := by
            simp; omega
          rw [hlen, List.getElem?_take_of_lt (by omega)]
          have : i + (j + 1 - i - 1) = j := by omega
          rw [this, hd]
        obtain ⟨init, hinit⟩ : ∃ init, (l.take (j + 1)).drop i = init ++ ['\x7d'] := by
          rcases List.eq_nil_or_concat ((l.take (j + 1)).drop i) with h | ⟨init, b, h⟩
          · rw [h] at hlast; simp at hlast
          · rw [h] at hlast
            simp at hlast
            exact ⟨init, by rw [h, hlast]; simp⟩
        have htrim : (strings.TrimRight (slice ⟨l⟩ i (j + 1)) ",").data
            = (l.take (j + 1)).drop i := by
          show ((l.take (j + 1)).drop i).rdropWhile (fun c => decide (c ∈ [','])) = _
          rw [hinit]
          exact List.rdropWhile_concat_neg _ _ _ (by decide)
        rw [htrim]
        exact ⟨hhead, hlast⟩

theorem foldl_linterStep (tool : String) (l : List IssueData) (acc : List Issue) :
    l.foldl (linterStep tool) acc
      = acc ++ (l.filter (fun e => decide (e.Text ≠ ignoredText))).map (linterIssue tool) := by
  induction l generalizing acc with
  | nil => simp
  | cons d ds ih =>
    rw [List.foldl_cons, ih]
    by_cases h : d.Text = ignoredText
    · simp [linterStep, h]
    · simp [linterStep, h, linterIssue]

theorem processLinterOutput_parsed (unmarshal : String → Option LintResults)
    (output tool : String) (jsonStart : Nat) (r : LintResults)
    (hstart : IndexAny (TrimSpace output) "\x7b[" = some jsonStart)
    (hparse : unmarshal (extractJSON (sliceFrom (TrimSpace output) jsonStart)) = some r) :
    processLinterOutput unmarshal output tool
      = (r.Issues.filter (fun e => decide (e.Text ≠ ignoredText))).map (linterIssue tool) := by
  have hne : TrimSpace output ≠ "" := by
    intro h
    rw [h] at hstart
    have hnone : IndexAny "" "\x7b[" = none := by decide
    rw [hnone] at hstart
    exact Option.noConfusion hstart
  unfold processLinterOutput
  simp only [hne, if_false, hstart, hparse]
  rw [foldl_linterStep]
  simp

theorem foldl_checkstyleErrorStep (table : Char → Char) (file : CheckstyleFile)
    (l : List CheckstyleError) (acc : List Issue) :
    l.foldl (checkstyleErrorStep table file) acc
      = acc ++ l.map (checkstyleIssue table file) := by
  induction l generalizing acc with
  | nil => simp
  | cons d ds ih =>
    rw [List.foldl_cons, ih]
    simp [checkstyleErrorStep, checkstyleIssue]

theorem foldl_checkstyleFileStep (table : Char → Char) (l : List CheckstyleFile)
    (acc : List Issue) :
    l.foldl (checkstyleFileStep table) acc
      = acc ++ l.flatMap (fun f => f.Errors.map (checkstyleIssue table f)) := by
  induction l generalizing acc with
  | nil => simp
  | cons d ds ih =>
    rw [List.foldl_cons, ih]
    simp [checkstyleFileStep, foldl_checkstyleErrorStep, List.flatMap_cons]

theorem processCheckstyleOutput_parsed (unmarshal : String → Option checkstyleXML)
    (table : Char → Char) (output : String) (doc : checkstyleXML)
    (hne : TrimSpace output ≠ "")
    (hparse : unmarshal (TrimSpace output) = some doc) :
    processCheckstyleOutput unmarshal table output
      = doc.Files.flatMap (fun f => f.Errors.map (checkstyleIssue table f)) := by
  unfold processCheckstyleOutput
  simp only [hne, if_false, hparse]
  rw [foldl_checkstyleFileStep]
  simp

theorem length_flatMap_errors (table : Char → Char) (l : List CheckstyleFile) :
    (l.flatMap (fun f => f.Errors.map (checkstyleIssue table f))).length
      = (l.map (fun f => f.Errors.length)).sum := by
  induction l with
  | nil => simp
  | cons d ds ih => simp [List.flatMap_cons, ih]

/-- Two suffixes of one string: the shorter is a suffix of the longer. -/
theorem hasSuffix_nested (p a b : String) (ha : HasSuffix p a = true)
    (hb : HasSuffix p b = true) (hab : a.data.length ≤ b.data.length) :
    b.data.drop (b.data.length - a.data.length) = a.data := by
  simp only [HasSuffix, Bool.and_eq_true, decide_eq_true_eq] at ha hb
  obtain ⟨hla, hda⟩ := ha
  obtain ⟨hlb, hdb⟩ := hb
  have h1 : b.data.drop (b.data.length - a.data.length)
      = (p.data.drop (p.data.length - b.data.length)).drop (b.data.length - a.data.length) := by
    rw [hdb]
  rw [h1, List.drop_drop]
  have h2 : p.data.length - b.data.length + (b.data.length - a.data.length)
      = p.data.length - a.data.length := by omega
  rw [h2]
  exact hda

/-- The four recognised suffixes exclude each other. -/
theorem suffix_cases (p : String) :
    (HasSuffix p ".go" = true ∧ HasSuffix p ".ts" = false ∧ HasSuffix p ".py" = false
        ∧ HasSuffix p ".java" = false) ∨
    (HasSuffix p ".go" = false ∧ HasSuffix p ".ts" = true ∧ HasSuffix p ".py" = false
        ∧ HasSuffix p ".java" = false) ∨
    (HasSuffix p ".go" = false ∧ HasSuffix p ".ts" = false ∧ HasSuffix p ".py" = true
        ∧ HasSuffix p ".java" = false) ∨
    (HasSuffix p ".go" = false ∧ HasSuffix p ".ts" = false ∧ HasSuffix p ".py" = false
        ∧ HasSuffix p ".java" = true) ∨
    (HasSuffix p ".go" = false ∧ HasSuffix p ".ts" = false ∧ HasSuffix p ".py" = false
        ∧ HasSuffix p ".java" = false) := by
  have excl : ∀ a b : String, a.data.length ≤ b.data.length →
      b.data.drop (b.data.length - a.data.length) ≠ a.data →
      HasSuffix p a = true → HasSuffix p b = true → False :=
    fun a b hab hne ha hb => hne (hasSuffix_nested p a b ha hb hab)
  have e1 := excl ".go" ".ts" (by decide) (by decide)
  have e2 := excl ".go" ".py" (by decide) (by decide)
  have e3 := excl ".go" ".java" (by decide) (by decide)
  have e4 := excl ".ts" ".py" (by decide) (by decide)
  have e5 := excl ".ts" ".java" (by decide) (by decide)
  have e6 := excl ".py" ".java" (by decide) (by decide)
  cases h1 : HasSuffix p ".go" <;> cases h2 : HasSuffix p ".ts" <;>
    cases h3 : HasSuffix p ".py" <;> cases h4 : HasSuffix p ".java" <;>
    simp_all



/-- The staged bindings the loop writes for a list of files, latest first. -/
theorem stageFile_ok (env : Env) (d : String) (st st1 : Staging) (f : File)
    (h : stageFile env d st f = .ok st1) :
    st1.goFiles = st.goFiles ++ stagedWith env d ".go" [f] ∧
    st1.tsFiles = st.tsFiles ++ stagedWith env d ".ts" [f] ∧
    st1.pyFiles = st.pyFiles ++ stagedWith env d ".py" [f] ∧
    st1.javaFiles = st.javaFiles ++ stagedWith env d ".java" [f] ∧
    st1.hasGo = (st.hasGo || HasSuffix f.Path ".go") ∧
    st1.hasTS = (st.hasTS || HasSuffix f.Path ".ts") ∧
    st1.hasPython = (st.hasPython || HasSuffix f.Path ".py") ∧
    st1.hasJava = (st.hasJava || HasSuffix f.Path ".java") ∧
    st1.fs = (if recognised f.Path then [(stagedPath env d f, f.Content)] else []) ++ st.fs := by
  unfold stageFile at h
  rcases suffix_cases f.Path with ⟨h1, h2, h3, h4⟩ | ⟨h1, h2, h3, h4⟩ | ⟨h1, h2, h3, h4⟩ |
      ⟨h1, h2, h3, h4⟩ | ⟨h1, h2, h3, h4⟩ <;>
    simp only [stageSwitch, h1, h2, h3, h4, if_true, if_false, Bool.false_eq_true] at h
  all_goals first
    | (cases hw : env.WriteFile st.fs (env.Join d (filepath.Base f.Path)) f.Content with
        | some e => simp [hw] at h
        | none =>
          simp only [hw, Except.ok.injEq] at h
          subst h
          simp [stagedWith, stagedPath, recognised, h1, h2, h3, h4])
    | (simp only [Except.ok.injEq] at h
       subst h
       simp [stagedWith, stagedPath, recognised, h1, h2, h3, h4])

theorem stageLoop_ok (env : Env) (d : String) :
    ∀ (files : List File) (st st1 : Staging), stageLoop env d files st = .ok st1 →
    st1.goFiles = st.goFiles ++ stagedWith env d ".go" files ∧
    st1.tsFiles = st.tsFiles ++ stagedWith env d ".ts" files ∧
    st1.pyFiles = st.pyFiles ++ stagedWith env d ".py" files ∧
    st1.javaFiles = st.javaFiles ++ stagedWith env d ".java" files ∧
    st1.hasGo = (st.hasGo || files.any (fun f => HasSuffix f.Path ".go")) ∧
    st1.hasTS = (st.hasTS || files.any (fun f => HasSuffix f.Path ".ts")) ∧
    st1.hasPython = (st.hasPython || files.any (fun f => HasSuffix f.Path ".py")) ∧
    st1.hasJava = (st.hasJava || files.any (fun f => HasSuffix f.Path ".java")) ∧
    st1.fs = ((files.filter (fun f => recognised f.Path)).map
        (fun f => (stagedPath env d f, f.Content))).reverse ++ st.fs := by
  intro files
  induction files with
  | nil =>
    intro st st1 h
    simp only [stageLoop, Except.ok.injEq] at h
    subst h
    simp [stagedWith]
  | cons f rest ih =>
    intro st st1 h
    unfold stageLoop at h
    cases hf : stageFile env d st f with
    | error e => simp [hf] at h
    | ok st2 =>
      simp only [hf] at h
      obtain ⟨a1, a2, a3, a4, a5, a6, a7, a8, a9⟩ := stageFile_ok env d st st2 f hf
      obtain ⟨b1, b2, b3, b4, b5, b6, b7, b8, b9⟩ := ih st2 st1 h
      rw [b1, b2, b3, b4, b5, b6, b7, b8, b9, a1, a2, a3, a4, a5, a6, a7, a8, a9]
      refine ⟨?_, ?_, ?_, ?_, ?_, ?_, ?_, ?_, ?_⟩
      · simp [stagedWith, List.filter_cons]; split <;> simp
      · simp [stagedWith, List.filter_cons]; split <;> simp
      · simp [stagedWith, List.filter_cons]; split <;> simp
      · simp [stagedWith, List.filter_cons]; split <;> simp
      · simp [Bool.or_assoc]
      · simp [Bool.or_assoc]
      · simp [Bool.or_assoc]
      · simp [Bool.or_assoc]
      · by_cases hr : recognised f.Path = true <;> simp [List.filter_cons, hr]

theorem toolBlock_post (env : Env) (runner : Runner) (tool : Tool) (what : String)
    (norm : String → List Issue) (d : String) (files : List String) (s : ToolState)
    (pre : List (Tool × String × List String))
    (hnorm : ∀ dir fl r, normalized env ⟨tool, dir, fl, r⟩ = norm r.output)
    (hs : PhasePost env pre (.ok s)) :
    PhasePost env (pre ++ argsIf tool d files) (toolBlock runner tool what norm d files s) := by
  obtain ⟨h1, h2, h3⟩ := hs
  unfold toolBlock argsIf
  by_cases hf : files.length > 0
  · simp only [hf, if_true]
    cases he : (runner s.fs d files).1.err with
    | some e =>
      simp only [PhasePost]
      refine ⟨by simp [h1, Call.args], ?_, ?_⟩
      · simpa using h2
      · exact ⟨⟨tool, d, files, (runner s.fs d files).1⟩, by simp, by simp [he]⟩
    | none =>
      simp only [PhasePost]
      refine ⟨by simp [h1, Call.args], ?_, ?_⟩
      · intro c hc
        simp only [List.mem_append, List.mem_singleton] at hc
        rcases hc with hc | hc
        · exact h2 c hc
        · subst hc; exact he
      · simp [h3, hnorm]
  · simp only [hf, if_false, List.append_nil]
    exact ⟨h1, h2, h3⟩



theorem toolPhase_post (env : Env) (d : String) (st : Staging) (fs : FS) :
    PhasePost env
      (argsIf Tool.ESLint d st.tsFiles ++ argsIf Tool.GolangCILint d st.goFiles ++
        argsIf Tool.Flake8 d st.pyFiles ++ argsIf Tool.Checkstyle d st.javaFiles)
      (toolPhase env d st { issues := [], calls := [], fs := fs })
    ∨ ∃ msg s rest, toolPhase env d st { issues := [], calls := [], fs := fs } = .error (msg, s) ∧
        PhasePost env (s.calls.map Call.args) (.error (msg, s)) ∧
        argsIf Tool.ESLint d st.tsFiles ++ argsIf Tool.GolangCILint d st.goFiles ++
          argsIf Tool.Flake8 d st.pyFiles ++ argsIf Tool.Checkstyle d st.javaFiles
          = s.calls.map Call.args ++ rest := by
  have h0 : PhasePost env [] (.ok { issues := [], calls := [], fs := fs }) := by
    simp [PhasePost]
  have p1 := toolBlock_post env env.RunESLint Tool.ESLint "ESLint"
    (fun out => processLinterOutput env.jsonUnmarshal out "ESLint") d st.tsFiles _ []
    (fun _ _ _ => rfl) h0
  unfold toolPhase
  generalize toolBlock env.RunESLint Tool.ESLint "ESLint"
    (fun out => processLinterOutput env.jsonUnmarshal out "ESLint") d st.tsFiles
    { issues := [], calls := [], fs := fs } = r1 at p1 ⊢
  rcases r1 with ⟨m1, s1⟩ | s1
  · right
    refine ⟨m1, s1, argsIf Tool.GolangCILint d st.goFiles ++ argsIf Tool.Flake8 d st.pyFiles ++
      argsIf Tool.Checkstyle d st.javaFiles, rfl, ?_, ?_⟩
    · exact ⟨rfl, p1.2.1, p1.2.2⟩
    · rw [p1.1]; simp [List.append_assoc]
  have p2 := toolBlock_post env env.runGolangCILint Tool.GolangCILint "golangci-lint"
    (fun out => processLinterOutput env.jsonUnmarshal out "GolangCILint") d st.goFiles s1 _
    (fun _ _ _ => rfl) p1
  simp only
  generalize toolBlock env.runGolangCILint Tool.GolangCILint "golangci-lint"
    (fun out => processLinterOutput env.jsonUnmarshal out "GolangCILint") d st.goFiles s1 = r2
    at p2 ⊢
  rcases r2 with ⟨m2, s2⟩ | s2
  · right
    refine ⟨m2, s2, argsIf Tool.Flake8 d st.pyFiles ++ argsIf Tool.Checkstyle d st.javaFiles,
      rfl, ?_, ?_⟩
    · exact ⟨rfl, p2.2.1, p2.2.2⟩
    · rw [p2.1]; simp [List.append_assoc]
  have p3 := toolBlock_post env env.RunPythonLinter Tool.Flake8 "flake8"
    (fun out => processLinterOutput env.jsonUnmarshal out "Flake8") d st.pyFiles s2 _
    (fun _ _ _ => rfl) p2
  simp only
  generalize toolBlock env.RunPythonLinter Tool.Flake8 "flake8"
    (fun out => processLinterOutput env.jsonUnmarshal out "Flake8") d st.pyFiles s2 = r3
    at p3 ⊢
  rcases r3 with ⟨m3, s3⟩ | s3
  · right
    refine ⟨m3, s3, argsIf Tool.Checkstyle d st.javaFiles, rfl, ?_, ?_⟩
    · exact ⟨rfl, p3.2.1, p3.2.2⟩
    · rw [p3.1]; simp
  have p4 := toolBlock_post env env.RunJavaLinter Tool.Checkstyle "Checkstyle"
    (fun out => processCheckstyleOutput env.xmlUnmarshal env.lowerTable out) d st.javaFiles s3 _
    (fun _ _ _ => rfl) p3
  simp only
  generalize toolBlock env.RunJavaLinter Tool.Checkstyle "Checkstyle"
    (fun out => processCheckstyleOutput env.xmlUnmarshal env.lowerTable out) d st.javaFiles s3
    = r4 at p4 ⊢
  rcases r4 with ⟨m4, s4⟩ | s4
  · right
    refine ⟨m4, s4, [], rfl, ?_, ?_⟩
    · exact ⟨rfl, p4.2.1, p4.2.2⟩
    · rw [p4.1]; simp
  · left
    simpa using p4

theorem recognised_count (files : List File) :
    (files.filter (fun f => HasSuffix f.Path ".go")).length +
      (files.filter (fun f => HasSuffix f.Path ".ts")).length +
      (files.filter (fun f => HasSuffix f.Path ".py")).length +
      (files.filter (fun f => HasSuffix f.Path ".java")).length
      = (files.filter (fun f => recognised f.Path)).length := by
  induction files with
  | nil => rfl
  | cons f rest ih =>
    rcases suffix_cases f.Path with ⟨h1, h2, h3, h4⟩ | ⟨h1, h2, h3, h4⟩ | ⟨h1, h2, h3, h4⟩ |
        ⟨h1, h2, h3, h4⟩ | ⟨h1, h2, h3, h4⟩ <;>
      simp only [List.filter_cons, recognised, h1, h2, h3, h4, Bool.or_false, Bool.or_true,
        Bool.false_or, Bool.true_or, if_true, if_false, Bool.false_eq_true, List.length_cons] at ih ⊢ <;>
      omega

theorem recognised_one_list (p : String) :
    (if HasSuffix p ".go" then 1 else 0) + (if HasSuffix p ".ts" then 1 else 0) +
      (if HasSuffix p ".py" then 1 else 0) + (if HasSuffix p ".java" then 1 else 0)
      = (if recognised p then 1 else 0) := by
  rcases suffix_cases p with ⟨h1, h2, h3, h4⟩ | ⟨h1, h2, h3, h4⟩ | ⟨h1, h2, h3, h4⟩ |
      ⟨h1, h2, h3, h4⟩ | ⟨h1, h2, h3, h4⟩ <;>
    simp [recognised, h1, h2, h3, h4]

theorem stageLoop_unrecognised (env : Env) (d : String) :
    ∀ (files : List File) (st : Staging), (∀ f ∈ files, recognised f.Path = false) →
      stageLoop env d files st = .ok st := by
  intro files
  induction files with
  | nil => intro st _; rfl
  | cons f rest ih =>
    intro st h
    have hf := h f (List.mem_cons_self _ _)
    simp only [recognised, Bool.or_eq_false_iff] at hf
    obtain ⟨⟨⟨h1, h2⟩, h3⟩, h4⟩ := hf
    have hs : stageFile env d st f = .ok st := by
      simp [stageFile, stageSwitch, h1, h2, h3, h4]
    unfold stageLoop
    rw [hs]
    exact ih st (fun g hg => h g (List.mem_cons_of_mem _ hg))

theorem stageLoop_succeeds (env : Env) (d : String)
    (hw : ∀ fs p c, env.WriteFile fs p c = none) :
    ∀ (files : List File) (st : Staging), ∃ st1, stageLoop env d files st = .ok st1 := by
  intro files
  induction files with
  | nil => intro st; exact ⟨st, rfl⟩
  | cons f rest ih =>
    intro st
    unfold stageLoop
    cases hsw : stageSwitch st f.Path (env.Join d (filepath.Base f.Path)) with
    | none =>
      have : stageFile env d st f = .ok st := by simp [stageFile, hsw]
      rw [this]
      exact ih st
    | some st2 =>
      have : stageFile env d st f
          = .ok { st2 with fs := (env.Join d (filepath.Base f.Path), f.Content) :: st2.fs } := by
        simp [stageFile, hsw, hw]
      rw [this]
      exact ih _

theorem stagedWith_of_any_false (env : Env) (d suf : String) (files : List File)
    (h : files.any (fun f => HasSuffix f.Path suf) = false) :
    stagedWith env d suf files = [] := by
  simp only [List.any_eq_false] at h
  simp only [stagedWith, List.map_eq_nil_iff, List.filter_eq_nil_iff]
  intro f hf
  exact h f hf

theorem expectedArgs_tools (env : Env) (d : String) (files : List File) :
    ((expectedArgs env d files).map (fun a => a.1)).Sublist
      [Tool.ESLint, Tool.GolangCILint, Tool.Flake8, Tool.Checkstyle] := by
  unfold expectedArgs argsIf
  split_ifs <;> simp

/-- The two ways a call of `Analyze` ends once staging has succeeded. -/
theorem analyze_staged (env : Env) (comment : String) (fs : FS) (files : List File)
    (d : String) (st : Staging) (htmp : env.TempDir = .ok d)
    (hst : stageLoop env d files (Staging.init fs) = .ok st) :
    (∃ issues, (Analyze env comment fs files).outcome = .returned issues none ∧
        issues = ((Analyze env comment fs files).calls.map (normalized env)).flatten ∧
        (Analyze env comment fs files).calls.map Call.args = expectedArgs env d files ∧
        ∀ c ∈ (Analyze env comment fs files).calls, c.result.err = none)
    ∨ (∃ msg rest, (Analyze env comment fs files).outcome = .fatal msg ∧
        expectedArgs env d files = (Analyze env comment fs files).calls.map Call.args ++ rest ∧
        (∀ c ∈ (Analyze env comment fs files).calls.dropLast, c.result.err = none) ∧
        ∃ c, (Analyze env comment fs files).calls.getLast? = some c ∧ c.result.err ≠ none) := by
  obtain ⟨b1, b2, b3, b4, b5, b6, b7, b8, -⟩ := stageLoop_ok env d files _ st hst
  simp only [Staging.init, List.nil_append, Bool.false_or] at b1 b2 b3 b4 b5 b6 b7 b8
  unfold Analyze
  simp only [htmp, hst]
  by_cases hflags : (!st.hasGo && !st.hasTS && !st.hasPython && !st.hasJava) = true
  · simp only [hflags, if_true]
    left
    simp only [Bool.and_eq_true, Bool.not_eq_true'] at hflags
    obtain ⟨⟨⟨f1, f2⟩, f3⟩, f4⟩ := hflags
    refine ⟨[], rfl, by simp, ?_, by simp⟩
    simp [expectedArgs, argsIf, stagedWith_of_any_false env d _ files (b5 ▸ f1),
      stagedWith_of_any_false env d _ files (b6 ▸ f2),
      stagedWith_of_any_false env d _ files (b7 ▸ f3),
      stagedWith_of_any_false env d _ files (b8 ▸ f4)]
  · simp only [hflags, if_false, Bool.false_eq_true]
    have hE : argsIf Tool.ESLint d st.tsFiles ++ argsIf Tool.GolangCILint d st.goFiles ++
        argsIf Tool.Flake8 d st.pyFiles ++ argsIf Tool.Checkstyle d st.javaFiles
        = expectedArgs env d files := by
      rw [b1, b2, b3, b4]; rfl
    have hp := toolPhase_post env d st st.fs
    rw [hE] at hp
    rcases hp with hp | ⟨msg, s, rest, hr, hp, hrest⟩
    · cases hr : toolPhase env d st { issues := [], calls := [], fs := st.fs } with
      | ok s =>
        rw [hr] at hp
        left
        exact ⟨s.issues, rfl, hp.2.2, hp.1, hp.2.1⟩
      | error e =>
        obtain ⟨msg, s⟩ := e
        rw [hr] at hp
        right
        exact ⟨msg, [], rfl, by simp [hp.1], hp.2.1, hp.2.2⟩
    · right
      rw [hr]
      exact ⟨msg, rest, rfl, hrest, hp.2.1, hp.2.2⟩

/-! ## Lemmas on extraction, the workspace, the advisory and the runners -/

theorem processLinterOutput_eq_payload (unmarshal : String → Option LintResults)
    (output tool : String) :
    processLinterOutput unmarshal output tool
      = match jsonPayload output with
        | none => []
        | some p =>
          match unmarshal p with
          | none => []
          | some r => r.Issues.foldl (linterStep tool) [] := by
  unfold processLinterOutput jsonPayload
  by_cases h : TrimSpace output = ""
  · simp [h]
  · simp only [h, if_false]
    cases IndexAny (TrimSpace output) "\x7b[" <;> rfl

/-- Dropping the text before the first `{` or `[` does not change what
    `extractJSON` selects. -/
theorem extractJSON_drop_chars :
    ∀ (l : List Char) (j : Nat), indexAnyChars ['\x7b', '['] l = some j →
      extractJSON ⟨l.drop j⟩ = extractJSON ⟨l⟩ := by
  intro l
  induction l with
  | nil => intro j h; simp [indexAnyChars] at h
  | cons c cs ih =>
    intro j h
    unfold indexAnyChars at h
    by_cases hc : c ∈ ['\x7b', '[']
    · simp only [hc, if_true, Option.some.injEq] at h
      subst h
      rfl
    · simp only [hc, if_false, Option.map_eq_some'] at h
      obtain ⟨k, hk, rfl⟩ := h
      rw [List.drop_succ_cons, ih k hk]
      have hc1 : c ∉ ['\x7b'] := fun hm => hc (by simp at hm; simp [hm])
      unfold extractJSON IndexAny LastIndexAny
      show (match indexAnyChars ['\x7b'] cs, lastIndexAnyChars ['\x7d'] cs with
        | some start, some stop =>
          if stop < start then "" else TrimRight (slice ⟨cs⟩ start (stop + 1)) ","
        | _, _ => "")
        = (match indexAnyChars ['\x7b'] (c :: cs), lastIndexAnyChars ['\x7d'] (c :: cs) with
        | some start, some stop =>
          if stop < start then "" else TrimRight (slice ⟨c :: cs⟩ start (stop + 1)) ","
        | _, _ => "")
      have e1 : indexAnyChars ['\x7b'] (c :: cs) = (indexAnyChars ['\x7b'] cs).map (· + 1) := by
        simp only [indexAnyChars, hc1, if_false]
      rw [e1]
      cases hi : indexAnyChars ['\x7b'] cs with
      | none => simp
      | some i =>
        cases hl : lastIndexAnyChars ['\x7d'] cs with
        | some m =>
          have e2 : lastIndexAnyChars ['\x7d'] (c :: cs) = some (m + 1) := by
            simp [lastIndexAnyChars, hl]
          rw [e2]
          simp [slice]
        | none =>
          by_cases hcb : c ∈ ['\x7d']
          · have e2 : lastIndexAnyChars ['\x7d'] (c :: cs) = some 0 := by
              simp only [lastIndexAnyChars, hl, hcb, if_true]
            rw [e2]
            simp
          · have e2 : lastIndexAnyChars ['\x7d'] (c :: cs) = none := by
              simp only [lastIndexAnyChars, hl, hcb, if_false]
            rw [e2]
            simp

theorem jsonPayload_eq (output : String) (j : Nat)
    (hstart : IndexAny (TrimSpace output) "\x7b[" = some j) :
    jsonPayload output = some (extractJSON (TrimSpace output)) := by
  have hne : TrimSpace output ≠ "" := by
    intro h
    rw [h] at hstart
    have hnone : IndexAny "" "\x7b[" = none := by decide
    rw [hnone] at hstart
    exact Option.noConfusion hstart
  unfold jsonPayload
  simp only [hne, if_false, hstart]
  have := extractJSON_drop_chars (TrimSpace output).data j hstart
  exact congrArg some this

/-- The span `extractJSON` returns is the slice from the first `{` to the
    last `}`: trimming commas at its right end removes nothing. -/
theorem extractJSON_span (s : String) (i k : Nat)
    (hi : IndexAny s "\x7b" = some i) (hk : LastIndexAny s "\x7d" = some k)
    (hik : ¬ k < i) : extractJSON s = slice s i (k + 1) := by
  obtain ⟨l⟩ := s
  have hdef : extractJSON ⟨l⟩ = TrimRight (slice ⟨l⟩ i (k + 1)) "," := by
    unfold extractJSON
    simp only [hi, hk, hik, if_false]
  rw [hdef]
  obtain ⟨d, hd, hdm⟩ := lastIndexAnyChars_getElem _ l k hk
  simp only [List.mem_singleton] at hdm
  subst hdm
  have hkl : k < l.length := by
    by_contra hcon
    rw [List.getElem?_eq_none (by omega)] at hd
    exact absurd hd (by simp)
  have hlast : ((l.take (k + 1)).drop i).getLast? = some '\x7d' := by
    rw [List.getLast?_eq_getElem?, List.getElem?_drop]
    have hlen : ((l.take (k + 1)).drop i).length = k + 1 - i := by
      simp; omega
    rw [hlen, List.getElem?_take_of_lt (by omega)]
    have : i + (k + 1 - i - 1) = k := by omega
    rw [this, hd]
  obtain ⟨init, hinit⟩ := List.getLast?_eq_some_iff.1 hlast
  show String.mk (((l.take (k + 1)).drop i).rdropWhile (fun c => decide (c ∈ [',']))) = _
  rw [hinit, List.rdropWhile_concat_neg _ _ _ (by decide)]
  show _ = String.mk ((l.take (k + 1)).drop i)
  rw [hinit]

theorem lookup_append_skip (k : String) (l1 l2 : FS) (h : ∀ p ∈ l1, p.1 ≠ k) :
    (l1 ++ l2).lookup k = l2.lookup k := by
  induction l1 with
  | nil => rfl
  | cons a rest ih =>
    obtain ⟨a1, a2⟩ := a
    have ha : a1 ≠ k := h (a1, a2) (List.mem_cons_self _ _)
    have hk : (k == a1) = false := by
      simp only [beq_eq_false_iff_ne, ne_eq]
      exact fun e => ha e.symm
    rw [List.cons_append, List.lookup_cons, hk]
    exact ih (fun p hp => h p (List.mem_cons_of_mem _ hp))

theorem exists_last_such (P : File → Bool) :
    ∀ files : List File, (∃ f ∈ files, P f = true) →
      ∃ pre g post, files = pre ++ g :: post ∧ P g = true ∧ ∀ x ∈ post, P x = false := by
  intro files
  induction files with
  | nil => intro h; obtain ⟨f, hf, -⟩ := h; simp at hf
  | cons a rest ih =>
    intro h
    by_cases hr : ∃ f ∈ rest, P f = true
    · obtain ⟨pre, g, post, he, hg, hpost⟩ := ih hr
      exact ⟨a :: pre, g, post, by rw [he]; rfl, hg, hpost⟩
    · have ha : P a = true := by
        obtain ⟨f, hf, hPf⟩ := h
        rcases List.mem_cons.1 hf with e | e
        · rw [← e]; exact hPf
        · exact absurd ⟨f, e, hPf⟩ hr
      refine ⟨[], a, rest, rfl, ha, ?_⟩
      intro x hx
      cases hPx : P x with
      | false => rfl
      | true => exact absurd ⟨x, hx, hPx⟩ hr

/-- Content of the workspace after a completed staging loop. -/
theorem stageLoop_lookup (env : Env) (d : String) (fs : FS) (files : List File)
    (st : Staging) (h : stageLoop env d files (Staging.init fs) = .ok st)
    (hinj : ∀ f ∈ files, recognised f.Path = true → ∀ p : String,
      env.Join d (filepath.Base f.Path) = env.Join d (filepath.Base p) →
        filepath.Base f.Path = filepath.Base p) :
    (∀ f ∈ files, recognised f.Path = true →
      ∃ pre g post, files = pre ++ g :: post ∧ recognised g.Path = true ∧
        filepath.Base g.Path = filepath.Base f.Path ∧
        (∀ x ∈ post, recognised x.Path = true → filepath.Base x.Path ≠ filepath.Base f.Path) ∧
        st.fs.lookup (env.Join d (filepath.Base f.Path)) = some g.Content) ∧
    (∀ p : String, (∀ f ∈ files, recognised f.Path = true →
        filepath.Base f.Path ≠ filepath.Base p) →
      st.fs.lookup (env.Join d (filepath.Base p)) = fs.lookup (env.Join d (filepath.Base p))) := by
  obtain ⟨-, -, -, -, -, -, -, -, b9⟩ := stageLoop_ok env d files _ st h
  simp only [Staging.init] at b9
  constructor
  · intro f hf hrec
    obtain ⟨pre, g, post, he, hg, hpost⟩ := exists_last_such
      (fun x => recognised x.Path && decide (filepath.Base x.Path = filepath.Base f.Path)) files
      ⟨f, hf, by simp [hrec]⟩
    simp only [Bool.and_eq_true, decide_eq_true_eq] at hg
    refine ⟨pre, g, post, he, hg.1, hg.2, ?_, ?_⟩
    · intro x hx hxr hxb
      have := hpost x hx
      simp [hxr, hxb] at this
    · rw [b9, he, List.filter_append, List.filter_cons, hg.1]
      simp only [if_true, List.map_append, List.map_cons, List.reverse_append,
        List.reverse_cons, List.append_assoc, List.singleton_append]
      rw [lookup_append_skip]
      · simp only [stagedPath, hg.2]
        exact List.lookup_cons_self
      · intro p hp
        simp only [List.mem_reverse, List.mem_map, List.mem_filter] at hp
        obtain ⟨x, ⟨hx, hxr⟩, rfl⟩ := hp
        intro hkey
        have hxm : x ∈ files := by rw [he]; simp [hx]
        have hb := hinj x hxm hxr f.Path hkey
        have := hpost x hx
        simp [hxr, hb] at this
  · intro p hp
    rw [b9]
    apply lookup_append_skip
    intro q hq
    simp only [List.mem_reverse, List.mem_map, List.mem_filter] at hq
    obtain ⟨x, ⟨hx, hxr⟩, rfl⟩ := hq
    intro hkey
    exact hp x hx hxr (hinj x hx hxr p hkey)

theorem append_left_cancel_string (a b c : String) (h : a ++ b = a ++ c) : b = c := by
  apply String.ext
  have := congrArg String.data h
  simpa using this

theorem noneStaged_eq (env : Env) (d suf : String) (files : List File) :
    noneStaged env d suf files = !files.any (fun f => HasSuffix f.Path suf) := by
  cases h : files.any (fun f => HasSuffix f.Path suf) with
  | false =>
    simp [noneStaged, stagedWith_of_any_false env d suf files h]
  | true =>
    simp only [List.any_eq_true] at h
    obtain ⟨f, hf, hs⟩ := h
    have : stagedWith env d suf files ≠ [] := by
      simp only [stagedWith, ne_eq, List.map_eq_nil_iff, List.filter_eq_nil_iff, not_forall]
      exact ⟨f, hf, by simp [hs]⟩
    cases hl : stagedWith env d suf files with
    | nil => exact absurd hl this
    | cons a as => simp [noneStaged, hl]

theorem advise_eq (st : Staging) (comment : String)
    (hany : (!st.hasGo && !st.hasTS && !st.hasPython && !st.hasJava) = false) :
    advise st comment []
      = (advisoryComment (!st.hasGo) (!st.hasTS) (!st.hasPython) (!st.hasJava) comment,
          advisoryLines (!st.hasGo) (!st.hasTS) (!st.hasPython) (!st.hasJava)) := by
  unfold advise advisoryComment advisoryLines
  rw [hany]
  cases st.hasGo <;> cases st.hasTS <;> cases st.hasPython <;> cases st.hasJava <;> rfl

/-- The advisory of a call of `Analyze` once staging has succeeded. -/
theorem analyze_advisory (env : Env) (comment : String) (fs : FS) (files : List File)
    (d : String) (st : Staging) (htmp : env.TempDir = .ok d)
    (hst : stageLoop env d files (Staging.init fs) = .ok st) :
    (∃ tail, (Analyze env comment fs files).logs
        = advisoryLines (noneStaged env d ".go" files) (noneStaged env d ".ts" files)
            (noneStaged env d ".py" files) (noneStaged env d ".java" files) ++ tail ∧
      (∀ issues err, (Analyze env comment fs files).outcome = .returned issues err →
        tail = [])) ∧
    (Analyze env comment fs files).Comment
      = advisoryComment (noneStaged env d ".go" files) (noneStaged env d ".ts" files)
          (noneStaged env d ".py" files) (noneStaged env d ".java" files) comment := by
  obtain ⟨-, -, -, -, b5, b6, b7, b8, -⟩ := stageLoop_ok env d files _ st hst
  simp only [Staging.init, Bool.false_or] at b5 b6 b7 b8
  rw [noneStaged_eq, noneStaged_eq, noneStaged_eq, noneStaged_eq, ← b5, ← b6, ← b7, ← b8]
  unfold Analyze
  simp only [htmp, hst]
  cases hflags : (!st.hasGo && !st.hasTS && !st.hasPython && !st.hasJava) with
  | true =>
    simp only [if_true]
    refine ⟨⟨[], ?_, fun _ _ _ => rfl⟩, ?_⟩
    · simp [advisoryLines, hflags]
    · simp [advisoryComment, hflags]
  | false =>
    simp only [Bool.false_eq_true, if_false]
    rw [advise_eq st comment hflags]
    cases toolPhase env d st { issues := [], calls := [], fs := st.fs } with
    | error e =>
      obtain ⟨msg, s⟩ := e
      exact ⟨⟨[msg], rfl, fun _ _ h => Outcome.noConfusion h⟩, rfl⟩
    | ok s =>
      exact ⟨⟨[], by simp, fun _ _ _ => rfl⟩, rfl⟩

theorem advisoryLines_injective :
    ∀ a b c e a1 b1 c1 e1 : Bool,
      advisoryLines a b c e = advisoryLines a1 b1 c1 e1 →
        a = a1 ∧ b = b1 ∧ c = c1 ∧ e = e1 := by
  decide

/-- The deferred removal runs exactly when `Analyze` returns. -/
theorem analyze_removed_iff_returned (env : Env) (comment : String) (fs : FS)
    (files : List File) (d : String) (htmp : env.TempDir = .ok d) :
    ((Analyze env comment fs files).tempDirRemoved = true ↔
      ∃ issues err, (Analyze env comment fs files).outcome = .returned issues err) := by
  unfold Analyze
  simp only [htmp]
  cases stageLoop env d files (Staging.init fs) with
  | error e => obtain ⟨msg, st⟩ := e; simp
  | ok st =>
    simp only
    split
    · simp
    · cases toolPhase env d st { issues := [], calls := [], fs := st.fs } with
      | error e => obtain ⟨msg, s⟩ := e; simp
      | ok s => simp

/-- The errors `Analyze` returns are those of creating the directory and of
    writing a staged file. -/
theorem analyze_returned_error (env : Env) (comment : String) (fs : FS)
    (files : List File) (issues : List Issue) (e : String)
    (h : (Analyze env comment fs files).outcome = .returned issues (some e)) :
    issues = [] ∧
    ((∃ e1, env.TempDir = .error e1 ∧ e = "failed to create temp directory: " ++ e1) ∨
      (∃ d st, env.TempDir = .ok d ∧
        stageLoop env d files (Staging.init fs) = .error (e, st))) := by
  unfold Analyze at h
  cases htmp : env.TempDir with
  | error e1 =>
    simp only [htmp, Outcome.returned.injEq, Option.some.injEq] at h
    exact ⟨h.1.symm, Or.inl ⟨e1, rfl, h.2.symm⟩⟩
  | ok d =>
    simp only [htmp] at h
    cases hst : stageLoop env d files (Staging.init fs) with
    | error x =>
      obtain ⟨msg, st⟩ := x
      simp only [hst, Outcome.returned.injEq, Option.some.injEq] at h
      exact ⟨h.1.symm, Or.inr ⟨d, st, rfl, by rw [← h.2]; exact hst⟩⟩
    | ok st =>
      simp only [hst] at h
      split at h
      · simp at h
      · cases htp : toolPhase env d st { issues := [], calls := [], fs := st.fs } with
        | error x => obtain ⟨msg, s⟩ := x; simp [htp] at h
        | ok s => simp [htp] at h

theorem writeIfAbsent_keeps (sys : Sys) (fs fs1 : FS) (path content : String)
    (h : writeIfAbsent sys fs path content = .ok fs1) (q : String)
    (hq : fs.lookup q ≠ none) : fs1.lookup q = fs.lookup q := by
  unfold writeIfAbsent at h
  by_cases hne : notExist fs path = true
  · simp only [hne, if_true] at h
    cases hw : sys.WriteFile fs path content with
    | some e => simp [hw] at h
    | none =>
      simp only [hw, Except.ok.injEq] at h
      subst h
      have hpq : (q == path) = false := by
        simp only [beq_eq_false_iff_ne, ne_eq]
        intro e
        subst e
        simp only [notExist, Option.isNone_iff_eq_none] at hne
        exact hq hne
      rw [List.lookup_cons, hpq]
  · simp only [hne, if_false, Except.ok.injEq, Bool.false_eq_true] at h
    rw [h]

/-- The result of `processLinterOutput` in terms of what the decoder makes
    of the brace span of the trimmed output. -/
theorem processLinterOutput_of_decoded (unmarshal : String → Option LintResults)
    (output tool : String) (r : LintResults)
    (hparse : unmarshal (extractJSON (TrimSpace output)) = some r) :
    processLinterOutput unmarshal output tool = [] ∨
    processLinterOutput unmarshal output tool
      = (r.Issues.filter (fun e => decide (e.Text ≠ ignoredText))).map (linterIssue tool) := by
  cases hj : IndexAny (TrimSpace output) "\x7b[" with
  | none =>
    left
    unfold processLinterOutput
    by_cases hne : TrimSpace output = ""
    · simp [hne]
    · simp [hne, hj]
  | some j =>
    right
    rw [processLinterOutput_eq_payload, jsonPayload_eq output j hj]
    simp only [hparse, foldl_linterStep, List.nil_append]

/-- A nil error of `RunESLint` comes with an output that passed its JSON
    array check. -/
theorem RunESLint_output_accepted (sys : Sys) (fs : FS) (dir : String)
    (files : List String) (h : (RunESLint sys fs dir files).1.err = none) :
    sys.jsonArrayErr (RunESLint sys fs dir files).1.output = none := by
  unfold RunESLint at h ⊢
  by_cases hf : files.length = 0
  · simp [hf] at h
  · simp only [hf, if_false] at h ⊢
    split at h
    · simp at h
    · split at h
      · simp at h
      · split at h
        · simp at h
        · split at h
          · simp at h
          · rename_i heq4 _ _ heq hnone
            simp only [*]

/-- Members that match no field leave the struct as it was. -/
theorem decodeMembers_skipped (fold : Char → Char) :
    ∀ (members : List (String × Json)) (cur : LintResults),
      (∀ m ∈ members, json.fieldMatches fold "Issues" m.1 = false) →
        json.decodeMembers (json.decodeLintMember fold) cur members = some cur := by
  intro members
  induction members with
  | nil => intro cur _; rfl
  | cons m ms ih =>
    intro cur h
    have hm := h m (List.mem_cons_self _ _)
    have hstep : json.decodeLintMember fold cur m = some cur := by
      simp [json.decodeLintMember, hm]
    unfold json.decodeMembers
    rw [hstep]
    exact ih cur (fun x hx => h x (List.mem_cons_of_mem _ hx))

/-! ## The JSON-family normalizer -/

/-- C1: when the payload extracted from a tool output decodes to an issue
    list, `processLinterOutput` returns, for any tool name, one issue per
    entry whose text is not the ignored message and none for the others, in
    the order of the entries; when every entry carries the ignored message
    the result is empty. -/
theorem processLinterOutput_one_issue_per_kept_entry
    (unmarshal : String → Option LintResults) (output tool : String) (jsonStart : Nat)
    (r : LintResults)
    (hstart : IndexAny (TrimSpace output) "\x7b[" = some jsonStart)
    (hparse : unmarshal (extractJSON (sliceFrom (TrimSpace output) jsonStart)) = some r) :
    processLinterOutput unmarshal output tool
        = (r.Issues.filter (fun e => decide (e.Text ≠ ignoredText))).map (fun e =>
            { Path := e.Pos.Filename, Line := e.Pos.Line, Column := e.Pos.Column,
              Severity := e.Severity, Title := tool ++ " Issue: " ++ e.Text,
              Description := e.Text,
              Suggestion := "Consider fixing this issue based on the linter's feedback.",
              Source := tool })
      ∧ (processLinterOutput unmarshal output tool).length
          = (r.Issues.filter (fun e => decide (e.Text ≠ ignoredText))).length
      ∧ ((∀ e ∈ r.Issues, e.Text = ignoredText) →
          processLinterOutput unmarshal output tool = []) := by
  have h := processLinterOutput_parsed unmarshal output tool jsonStart r hstart hparse
  refine ⟨h, ?_, ?_⟩
  · rw [h, List.length_map]
  · intro hall
    rw [h]
    have : r.Issues.filter (fun e => decide (e.Text ≠ ignoredText)) = [] := by
      rw [List.filter_eq_nil_iff]
      intro e he
      simp [hall e he]
    rw [this]
    rfl

/-- Scenario A yields zero issues. -/
theorem processLinterOutput_one_issue_per_kept_entry_witness :
    IndexAny (TrimSpace scenarioA) "\x7b[" = some 0 ∧
    decodeOnly scenarioA scenarioAParsed (extractJSON (sliceFrom (TrimSpace scenarioA) 0))
      = some scenarioAParsed ∧
    processLinterOutput (decodeOnly scenarioA scenarioAParsed) scenarioA "GolangCILint" = [] :=
  ⟨by decide, by decide,
    (processLinterOutput_one_issue_per_kept_entry (decodeOnly scenarioA scenarioAParsed)
      scenarioA "GolangCILint" 0 scenarioAParsed (by decide) (by decide)).2.2 (by decide)⟩

/-- C2 (the code at a failing input): for the report `upperReport`, whose
    only entry has severity `WARNING`, `processLinterOutput` stores the
    severity `WARNING` unchanged, while its lower-cased form is `warning`. -/
theorem processLinterOutput_keeps_severity_case (table : Char → Char) :
    (processLinterOutput (decodeOnly upperReport upperParsed) upperReport "GolangCILint").map
        (fun i => i.Severity) = ["WARNING"] ∧
    ToLower table "WARNING" = "warning" ∧
    (processLinterOutput (decodeOnly upperReport upperParsed) upperReport "GolangCILint").map
        (fun i => i.Severity) ≠ upperParsed.Issues.map (fun e => ToLower table e.Severity) := by
  have h1 : (processLinterOutput (decodeOnly upperReport upperParsed) upperReport
      "GolangCILint").map (fun i => i.Severity) = ["WARNING"] := by decide
  have h2 : upperParsed.Issues.map (fun e => ToLower table e.Severity) = ["warning"] := rfl
  refine ⟨h1, rfl, ?_⟩
  rw [h1, h2]
  decide

/-- C3: the k-th issue returned by `processLinterOutput` for tool name `tool`
    is built from the k-th entry whose text is not the ignored message: path,
    line and column are those of `Pos`, the title is the tool name followed
    by ` Issue: ` and the text, the description is the text and the source is
    the tool name. -/
theorem processLinterOutput_fields
    (unmarshal : String → Option LintResults) (output tool : String) (jsonStart : Nat)
    (r : LintResults)
    (hstart : IndexAny (TrimSpace output) "\x7b[" = some jsonStart)
    (hparse : unmarshal (extractJSON (sliceFrom (TrimSpace output) jsonStart)) = some r)
    (k : Nat) (e : IssueData)
    (hk : (r.Issues.filter (fun e => decide (e.Text ≠ ignoredText)))[k]? = some e) :
    ∃ i, (processLinterOutput unmarshal output tool)[k]? = some i ∧
      i.Path = e.Pos.Filename ∧ i.Line = e.Pos.Line ∧ i.Column = e.Pos.Column ∧
      i.Title = tool ++ " Issue: " ++ e.Text ∧ i.Description = e.Text ∧ i.Source = tool := by
  rw [processLinterOutput_parsed unmarshal output tool jsonStart r hstart hparse]
  refine ⟨linterIssue tool e, ?_, rfl, rfl, rfl, rfl, rfl, rfl⟩
  rw [List.getElem?_map, hk]
  rfl

/-- The second issue of `noisyReport` comes from its third entry. -/
theorem processLinterOutput_fields_witness :
    IndexAny (TrimSpace noisyReport) "\x7b[" = some 37 ∧
    decodeOnly noisyDoc noisyParsed (extractJSON (sliceFrom (TrimSpace noisyReport) 37))
      = some noisyParsed ∧
    (noisyParsed.Issues.filter (fun e => decide (e.Text ≠ ignoredText)))[1]?
      = some { FromLinter := "govet", Text := "unreachable code", Severity := "",
               SourceLines := [], Pos := ⟨"c.go", 10, 2⟩ } ∧
    ∃ i, (processLinterOutput (decodeOnly noisyDoc noisyParsed) noisyReport "GolangCILint")[1]?
        = some i ∧
      i.Path = "c.go" ∧ i.Line = 10 ∧ i.Column = 2 ∧
      i.Title = "GolangCILint" ++ " Issue: " ++ "unreachable code" ∧
      i.Description = "unreachable code" ∧ i.Source = "GolangCILint" :=
  ⟨by decide, by decide, by decide,
    processLinterOutput_fields (decodeOnly noisyDoc noisyParsed) noisyReport "GolangCILint" 37
      noisyParsed (by decide) (by decide) 1
      { FromLinter := "govet", Text := "unreachable code", Severity := "",
        SourceLines := [], Pos := ⟨"c.go", 10, 2⟩ } (by decide)⟩

/-! ## The Checkstyle normalizer -/

/-- C4: for a non-empty output that decodes to a Checkstyle document,
    `processCheckstyleOutput` returns one issue per `<error>`, files in
    order and the errors of a file in order, with the path of the enclosing
    file, the line, column and message of the error, its severity
    lower-cased and the source `Checkstyle`; their number is the total
    number of errors. -/
theorem processCheckstyleOutput_one_issue_per_error
    (unmarshal : String → Option checkstyleXML) (table : Char → Char) (output : String)
    (doc : checkstyleXML)
    (hne : TrimSpace output ≠ "")
    (hparse : unmarshal (TrimSpace output) = some doc) :
    processCheckstyleOutput unmarshal table output
        = doc.Files.flatMap (fun f => f.Errors.map (fun e =>
            { Path := f.Name, Line := e.Line, Column := e.Column,
              Severity := ToLower table e.Severity,
              Title := "Checkstyle Issue: " ++ filepath.Base e.Source,
              Description := e.Message, Suggestion := "Fix according to Checkstyle rule.",
              Source := "Checkstyle" }))
      ∧ (processCheckstyleOutput unmarshal table output).length
          = (doc.Files.map (fun f => f.Errors.length)).sum := by
  have h := processCheckstyleOutput_parsed unmarshal table output doc hne hparse
  refine ⟨h, ?_⟩
  rw [h, length_flatMap_errors]

/-- The report `twoFileReport` yields three issues in document order. -/
theorem processCheckstyleOutput_one_issue_per_error_witness :
    TrimSpace twoFileReport ≠ "" ∧
    decodeOnly twoFileReport twoFileParsed (TrimSpace twoFileReport) = some twoFileParsed ∧
    (processCheckstyleOutput (decodeOnly twoFileReport twoFileParsed) id twoFileReport).map
        (fun i => (i.Path, i.Line, i.Column, i.Severity, i.Description, i.Source))
      = [("A.java", 1, 8, "warning", "star import", "Checkstyle"),
         ("A.java", 4, 5, "error", "bad name", "Checkstyle"),
         ("B.java", 2, 1, "info", "unused import", "Checkstyle")] ∧
    (processCheckstyleOutput (decodeOnly twoFileReport twoFileParsed) id twoFileReport).length
      = (twoFileParsed.Files.map (fun f => f.Errors.length)).sum :=
  ⟨by decide, by decide,
    by
      rw [(processCheckstyleOutput_one_issue_per_error (decodeOnly twoFileReport twoFileParsed)
        id twoFileReport twoFileParsed (by decide) (by decide)).1]
      decide,
    (processCheckstyleOutput_one_issue_per_error (decodeOnly twoFileReport twoFileParsed)
      id twoFileReport twoFileParsed (by decide) (by decide)).2⟩

/-- C5 (the code at a failing input): on scenario B `processCheckstyleOutput`
    returns one issue with path `Foo.java`, line 10, column 2, severity
    `error` and source `Checkstyle`, whose title keeps the whole source
    attribute, `Checkstyle Issue: com.pkg.RuleX`, since `filepath.Base`
    splits at `/` and not at `.`. -/
theorem processCheckstyleOutput_scenarioB (table : Char → Char) :
    processCheckstyleOutput (decodeOnly (TrimSpace scenarioB) scenarioBParsed) table scenarioB
      = [{ Path := "Foo.java", Line := 10, Column := 2, Severity := "error",
           Title := "Checkstyle Issue: com.pkg.RuleX", Description := "bad",
           Suggestion := "Fix according to Checkstyle rule.", Source := "Checkstyle" }] ∧
    filepath.Base "com.pkg.RuleX" = "com.pkg.RuleX" ∧
    "Checkstyle Issue: com.pkg.RuleX" ≠ "Checkstyle Issue: RuleX" := by
  refine ⟨?_, by decide, by decide⟩
  rw [(processCheckstyleOutput_parsed _ table scenarioB scenarioBParsed
    (by decide) (by decide))]
  rfl

/-! ## Extraction -/

/-- C6: `extractJSON` is idempotent. -/
theorem extractJSON_idempotent (s : String) :
    extractJSON (extractJSON s) = extractJSON s := by
  rcases extractJSON_shape s with h | ⟨h1, h2⟩
  · rw [h]; decide
  · exact extractJSON_braced _ h1 h2

/-! ## Staging -/

/-- C7: when the staging loop completes, each per-language list holds, in
    input order, the staged paths of exactly the files whose path ends with
    that language's suffix (compared case-sensitively); a path ends with at
    most one of the four suffixes; only recognised files are written; and
    the four lists together are as long as the number of recognised input
    files. -/
theorem staging_classifies_by_suffix (env : Env) (tempDir : String) (fs : FS)
    (files : List File) (st : Staging)
    (h : stageLoop env tempDir files (Staging.init fs) = .ok st) :
    st.goFiles = (files.filter (fun f => HasSuffix f.Path ".go")).map
        (fun f => env.Join tempDir (filepath.Base f.Path)) ∧
    st.tsFiles = (files.filter (fun f => HasSuffix f.Path ".ts")).map
        (fun f => env.Join tempDir (filepath.Base f.Path)) ∧
    st.pyFiles = (files.filter (fun f => HasSuffix f.Path ".py")).map
        (fun f => env.Join tempDir (filepath.Base f.Path)) ∧
    st.javaFiles = (files.filter (fun f => HasSuffix f.Path ".java")).map
        (fun f => env.Join tempDir (filepath.Base f.Path)) ∧
    st.fs = ((files.filter (fun f => recognised f.Path)).map
        (fun f => (env.Join tempDir (filepath.Base f.Path), f.Content))).reverse ++ fs ∧
    (∀ p : String,
      (if HasSuffix p ".go" then 1 else 0) + (if HasSuffix p ".ts" then 1 else 0) +
        (if HasSuffix p ".py" then 1 else 0) + (if HasSuffix p ".java" then 1 else 0)
        = (if recognised p then 1 else 0)) ∧
    st.goFiles.length + st.tsFiles.length + st.pyFiles.length + st.javaFiles.length
      = (files.filter (fun f => recognised f.Path)).length := by
  obtain ⟨b1, b2, b3, b4, -, -, -, -, b9⟩ := stageLoop_ok env tempDir files _ st h
  simp only [Staging.init, List.nil_append] at b1 b2 b3 b4 b9
  refine ⟨b1, b2, b3, b4, b9, recognised_one_list, ?_⟩
  rw [b1, b2, b3, b4]
  simp only [stagedWith, List.length_map]
  exact recognised_count files

/-- On `mixedFiles` five of the nine files are staged; `A.GO`, `app.tsx`,
    `util.js` and `README.md` are not. -/
theorem staging_classifies_by_suffix_witness :
    stageLoop sampleEnv "/tmp/keploy-review-1" mixedFiles (Staging.init []) = .ok mixedStaged ∧
    mixedStaged.goFiles.length + mixedStaged.tsFiles.length + mixedStaged.pyFiles.length +
        mixedStaged.javaFiles.length
      = (mixedFiles.filter (fun f => recognised f.Path)).length ∧
    (mixedFiles.filter (fun f => recognised f.Path)).length = 5 :=
  ⟨by rfl,
    (staging_classifies_by_suffix sampleEnv "/tmp/keploy-review-1" [] mixedFiles mixedStaged
      (by rfl)).2.2.2.2.2.2,
    by decide⟩

/-! ## Orchestration -/

/-- C8: when the temporary directory can be created and no input path ends
    with `.go`, `.ts`, `.py` or `.java`, `Analyze` returns zero issues with
    a nil error and calls no tool runner. -/
theorem analyze_nothing_recognised (env : Env) (comment : String) (fs : FS)
    (files : List File) (tempDir : String)
    (htmp : env.TempDir = .ok tempDir)
    (hnone : ∀ f ∈ files, recognised f.Path = false) :
    (Analyze env comment fs files).outcome = .returned [] none ∧
    (Analyze env comment fs files).calls = [] := by
  have hst := stageLoop_unrecognised env tempDir files (Staging.init fs) hnone
  unfold Analyze
  simp only [htmp, hst]
  simp [Staging.init]

/-- Neither `unknownFiles` nor the empty list reaches a tool. -/
theorem analyze_nothing_recognised_witness :
    sampleEnv.TempDir = .ok "/tmp/keploy-review-1" ∧
    (∀ f ∈ unknownFiles, recognised f.Path = false) ∧
    ((Analyze sampleEnv "" [] unknownFiles).outcome = .returned [] none ∧
      (Analyze sampleEnv "" [] unknownFiles).calls = []) ∧
    ((Analyze sampleEnv "" [] []).outcome = .returned [] none ∧
      (Analyze sampleEnv "" [] []).calls = []) :=
  ⟨rfl, by decide,
    analyze_nothing_recognised sampleEnv "" [] unknownFiles "/tmp/keploy-review-1" rfl
      (by decide),
    analyze_nothing_recognised sampleEnv "" [] [] "/tmp/keploy-review-1" rfl (by decide)⟩

/-- C9 (the code at a failing input): with one TypeScript and one Go file
    staged and an ESLint runner that reports an error, `Analyze` ends in
    `log.Fatalf` after the ESLint call; the Go file is staged and the Go
    runner is never called, whereas the same input calls both runners when
    ESLint reports no error. -/
theorem analyze_skips_runner_after_fatal :
    stageLoop failingEnv "/tmp/keploy-review-1" tsAndGoFiles (Staging.init [])
      = .ok tsAndGoStaged ∧
    (∃ f ∈ tsAndGoFiles, recognised f.Path = true) ∧
    (Analyze failingEnv "" [] tsAndGoFiles).outcome
      = .fatal "Error running ESLint: invalid ESLint JSON output" ∧
    ¬ ((∃ c ∈ (Analyze failingEnv "" [] tsAndGoFiles).calls, c.tool = Tool.GolangCILint) ↔
        tsAndGoStaged.goFiles ≠ []) ∧
    (Analyze failingEnv "" [] tsAndGoFiles).calls.map Call.args
      = [(Tool.ESLint, "/tmp/keploy-review-1", ["/tmp/keploy-review-1/api.ts"])] ∧
    (Analyze sampleEnv "" [] tsAndGoFiles).calls.map Call.args
      = [(Tool.ESLint, "/tmp/keploy-review-1", ["/tmp/keploy-review-1/api.ts"]),
         (Tool.GolangCILint, "/tmp/keploy-review-1", ["/tmp/keploy-review-1/main.go"])] := by
  refine ⟨by rfl, by decide, by decide, by decide, by decide, by decide⟩

/-- The runner calls along a run: when the temporary directory is created and
    staging succeeds, the runner calls made by `Analyze` are an initial part of the
    due invocations (ESLint, golangci-lint, flake8, Checkstyle, each only
    when its language has a staged file and with exactly that language's
    staged paths); the whole of them when no call reports an error; only the
    last call made can report an error; and no runner is called twice. -/
theorem analyze_calls_due_runners (env : Env) (comment : String) (fs : FS)
    (files : List File) (tempDir : String) (st : Staging)
    (htmp : env.TempDir = .ok tempDir)
    (hst : stageLoop env tempDir files (Staging.init fs) = .ok st) :
    (∃ rest, expectedArgs env tempDir files
        = (Analyze env comment fs files).calls.map Call.args ++ rest ∧
      ((∀ c ∈ (Analyze env comment fs files).calls, c.result.err = none) → rest = [])) ∧
    (∀ c ∈ (Analyze env comment fs files).calls.dropLast, c.result.err = none) ∧
    ((Analyze env comment fs files).calls.map (fun c => c.tool)).Nodup := by
  have key : ∃ rest, expectedArgs env tempDir files
        = (Analyze env comment fs files).calls.map Call.args ++ rest ∧
      ((∀ c ∈ (Analyze env comment fs files).calls, c.result.err = none) → rest = []) ∧
      (∀ c ∈ (Analyze env comment fs files).calls.dropLast, c.result.err = none) := by
    rcases analyze_staged env comment fs files tempDir st htmp hst with
      ⟨issues, -, -, hargs, hall⟩ | ⟨msg, rest, -, hpre, hinit, c, hlast, hc⟩
    · refine ⟨[], by simp [hargs], fun _ => rfl, ?_⟩
      intro c hc
      exact hall c (List.mem_of_mem_dropLast hc)
    · refine ⟨rest, hpre, ?_, hinit⟩
      intro hall
      exact absurd (hall c (List.mem_of_getLast?_eq_some hlast)) hc
  obtain ⟨rest, hpre, hfull, hinit⟩ := key
  refine ⟨⟨rest, hpre, hfull⟩, hinit, ?_⟩
  have hsub : ((Analyze env comment fs files).calls.map (fun c => c.tool)).Sublist
      ((expectedArgs env tempDir files).map (fun a => a.1)) := by
    rw [hpre, List.map_append, List.map_map]
    exact List.sublist_append_left _ _
  exact ((hsub.trans (expectedArgs_tools env tempDir files)).nodup (by decide))

/-- Scenario C stages one file and calls only the Go runner, once, with the
    staged path. -/
theorem analyze_calls_due_runners_witness :
    sampleEnv.TempDir = .ok "/tmp/keploy-review-1" ∧
    stageLoop sampleEnv "/tmp/keploy-review-1" scenarioCFiles (Staging.init [])
      = .ok scenarioCStaged ∧
    scenarioCStaged.fs.length = 1 ∧
    (Analyze sampleEnv "" [] scenarioCFiles).calls.map Call.args
      = [(Tool.GolangCILint, "/tmp/keploy-review-1", ["/tmp/keploy-review-1/main.go"])] ∧
    ((Analyze sampleEnv "" [] scenarioCFiles).calls.map (fun c => c.tool)).Nodup :=
  ⟨rfl, by rfl, by decide, by decide,
    (analyze_calls_due_runners sampleEnv "" [] scenarioCFiles "/tmp/keploy-review-1"
      scenarioCStaged rfl (by rfl)).2.2⟩

/-- C10: whenever `Analyze` returns, the returned issue list is the
    concatenation, in call order, of the normalized output of every runner
    call it made; its length is the sum of the per-call counts; and the
    calls follow the order ESLint, golangci-lint, flake8, Checkstyle. -/
theorem analyze_concatenates_in_call_order (env : Env) (comment : String) (fs : FS)
    (files : List File) (issues : List Issue) (err : Option String)
    (h : (Analyze env comment fs files).outcome = .returned issues err) :
    issues = ((Analyze env comment fs files).calls.map (normalized env)).flatten ∧
    issues.length
      = ((Analyze env comment fs files).calls.map (fun c => (normalized env c).length)).sum ∧
    ((Analyze env comment fs files).calls.map (fun c => c.tool)).Sublist
      [Tool.ESLint, Tool.GolangCILint, Tool.Flake8, Tool.Checkstyle] := by
  have key : issues = ((Analyze env comment fs files).calls.map (normalized env)).flatten ∧
      ((Analyze env comment fs files).calls.map (fun c => c.tool)).Sublist
        [Tool.ESLint, Tool.GolangCILint, Tool.Flake8, Tool.Checkstyle] := by
    cases htmp : env.TempDir with
    | error e =>
      simp only [Analyze, htmp, Outcome.returned.injEq] at h ⊢
      simp [← h.1]
    | ok d =>
      cases hst : stageLoop env d files (Staging.init fs) with
      | error e =>
        obtain ⟨msg, st⟩ := e
        simp only [Analyze, htmp, hst, Outcome.returned.injEq] at h ⊢
        simp [← h.1]
      | ok st =>
        rcases analyze_staged env comment fs files d st htmp hst with
          ⟨issues1, hout, hcat, hargs, -⟩ | ⟨msg, rest, hout, -, -, -⟩
        · rw [hout] at h
          simp only [Outcome.returned.injEq] at h
          refine ⟨h.1 ▸ hcat, ?_⟩
          have := expectedArgs_tools env d files
          rw [← hargs, List.map_map] at this
          exact this
        · rw [hout] at h
          exact Outcome.noConfusion h
  refine ⟨key.1, ?_, key.2⟩
  rw [key.1, List.length_flatten, List.map_map]
  rfl

/-- On `mixedFiles` the two golangci-lint issues come before the three
    Checkstyle issues. -/
theorem analyze_concatenates_in_call_order_witness :
    (Analyze sampleEnv "" [] mixedFiles).outcome
      = .returned (processLinterOutput sampleEnv.jsonUnmarshal noisyReport "GolangCILint" ++
          processCheckstyleOutput sampleEnv.xmlUnmarshal id twoFileReport) none ∧
    (Analyze sampleEnv "" [] mixedFiles).calls.map (fun c => c.tool)
      = [Tool.ESLint, Tool.GolangCILint, Tool.Flake8, Tool.Checkstyle] ∧
    (processLinterOutput sampleEnv.jsonUnmarshal noisyReport "GolangCILint" ++
        processCheckstyleOutput sampleEnv.xmlUnmarshal id twoFileReport).length = 5 ∧
    (processLinterOutput sampleEnv.jsonUnmarshal noisyReport "GolangCILint" ++
        processCheckstyleOutput sampleEnv.xmlUnmarshal id twoFileReport)
      = ((Analyze sampleEnv "" [] mixedFiles).calls.map (normalized sampleEnv)).flatten :=
  ⟨by decide, by decide, by decide,
    (analyze_concatenates_in_call_order sampleEnv "" [] mixedFiles _ none (by decide)).1⟩

/-! ## Bad tool output -/

/-- C11: `processLinterOutput` returns the empty list when the output is
    empty or white space, when it holds no `{` and no `[`, and when the
    extracted text does not decode; `processCheckstyleOutput` returns the
    empty list when the output is empty or white space and when it does not
    decode; and the slice expressions of `processLinterOutput` and
    `extractJSON` are always within bounds, so neither function panics. -/
theorem normalizers_empty_on_bad_output
    (jsonUnmarshal : String → Option LintResults)
    (xmlUnmarshal : String → Option checkstyleXML) (table : Char → Char)
    (output tool : String) :
    (TrimSpace output = "" → processLinterOutput jsonUnmarshal output tool = []) ∧
    (IndexAny (TrimSpace output) "\x7b[" = none →
      processLinterOutput jsonUnmarshal output tool = []) ∧
    (∀ p, jsonPayload output = some p → jsonUnmarshal p = none →
      processLinterOutput jsonUnmarshal output tool = []) ∧
    (TrimSpace output = "" → processCheckstyleOutput xmlUnmarshal table output = []) ∧
    (xmlUnmarshal (TrimSpace output) = none →
      processCheckstyleOutput xmlUnmarshal table output = []) ∧
    (∀ j, IndexAny (TrimSpace output) "\x7b[" = some j →
      j ≤ (TrimSpace output).data.length) ∧
    (∀ input start stop, IndexAny input "\x7b" = some start →
      LastIndexAny input "\x7d" = some stop → ¬ stop < start →
        start ≤ stop + 1 ∧ stop + 1 ≤ input.data.length) := by
  refine ⟨?_, ?_, ?_, ?_, ?_, ?_, ?_⟩
  · intro h
    simp [processLinterOutput, h]
  · intro h
    unfold processLinterOutput
    by_cases hne : TrimSpace output = ""
    · simp [hne]
    · simp [hne, h]
  · intro p hp hnone
    rw [processLinterOutput_eq_payload, hp]
    simp [hnone]
  · intro h
    simp [processCheckstyleOutput, h]
  · intro h
    unfold processCheckstyleOutput
    by_cases hne : TrimSpace output = ""
    · simp [hne]
    · simp [hne, h]
  · intro j hj
    obtain ⟨c, hc, -⟩ := indexAnyChars_getElem _ _ j hj
    by_contra hcon
    rw [List.getElem?_eq_none (by omega)] at hc
    exact absurd hc (by simp)
  · intro input start stop _ hstop hle
    obtain ⟨c, hc, -⟩ := lastIndexAnyChars_getElem _ _ stop hstop
    refine ⟨by omega, ?_⟩
    by_contra hcon
    rw [List.getElem?_eq_none (by omega)] at hc
    exact absurd hc (by simp)

/-- White space, a text without brackets, an undecodable payload and an
    undecodable XML text all give the empty list. -/
theorem normalizers_empty_on_bad_output_witness :
    processLinterOutput (decodeOnly noisyDoc noisyParsed) " \n\t " "Flake8" = [] ∧
    processLinterOutput (decodeOnly noisyDoc noisyParsed) "flake8: command failed" "Flake8" = [] ∧
    processLinterOutput (decodeOnly noisyDoc noisyParsed) trailingCommaReport "Flake8" = [] ∧
    processCheckstyleOutput (decodeOnly twoFileReport twoFileParsed) id "<checkstyle" = [] :=
  ⟨(normalizers_empty_on_bad_output (decodeOnly noisyDoc noisyParsed)
      (decodeOnly twoFileReport twoFileParsed) id " \n\t " "Flake8").1 (by decide),
    (normalizers_empty_on_bad_output (decodeOnly noisyDoc noisyParsed)
      (decodeOnly twoFileReport twoFileParsed) id "flake8: command failed" "Flake8").2.1
      (by decide),
    (normalizers_empty_on_bad_output (decodeOnly noisyDoc noisyParsed)
      (decodeOnly twoFileReport twoFileParsed) id trailingCommaReport "Flake8").2.2.1
      trailingCommaReport (by decide) (by decide),
    (normalizers_empty_on_bad_output (decodeOnly noisyDoc noisyParsed)
      (decodeOnly twoFileReport twoFileParsed) id "<checkstyle" "Flake8").2.2.2.2.1
      (by decide)⟩

/-! ## Tool failures -/

/-- C12 (the code at a failing input): with one Go and one Python file
    staged on a machine without `flake8`, `RunPythonLinter` returns an error
    and `Analyze` ends in `log.Fatalf`: nothing is returned, although the
    same input returns the golangci-lint issues when `flake8` is present,
    and a missing `golangci-lint` is skipped with a normal return. -/
theorem analyze_fatal_without_flake8 :
    noFlake8Sys.LookPath "flake8" = some "executable file not found in $PATH" ∧
    (Analyze (machineEnv noFlake8Sys) "" [] goAndPyFiles).outcome
      = .fatal "Error running flake8: flake8 not found in PATH: executable file not found in $PATH" ∧
    (Analyze (machineEnv sampleSys) "" [] goAndPyFiles).outcome
      = .returned (processLinterOutput (decodeOnly noisyDoc noisyParsed) noisyReport
          "GolangCILint") none ∧
    (processLinterOutput (decodeOnly noisyDoc noisyParsed) noisyReport "GolangCILint").length
      = 2 ∧
    (Analyze (machineEnv noGolangciSys) "" [] goAndPyFiles).outcome = .returned [] none := by
  refine ⟨by decide, by decide, by decide, by decide, by decide⟩

/-- C13 (the code at a failing input): with one TypeScript and one Go file
    staged and an ESLint that prints a text that is not JSON, `RunESLint`
    returns an error and `Analyze` ends in `log.Fatalf` after the ESLint
    call: it does not return, and the two golangci-lint issues that the same
    input yields with a well-formed ESLint output are lost. -/
theorem analyze_fatal_on_malformed_eslint :
    brokenESLintSys.jsonArrayErr "Oops! Something went wrong! :(" ≠ none ∧
    (Analyze (machineEnv brokenESLintSys) "" [] tsAndGoFiles).outcome
      = .fatal "Error running ESLint: invalid ESLint JSON output: invalid character looking for beginning of value\nOutput: Oops! Something went wrong! :(" ∧
    (Analyze (machineEnv brokenESLintSys) "" [] tsAndGoFiles).calls.map (fun c => c.tool)
      = [Tool.ESLint] ∧
    (Analyze (machineEnv sampleSys) "" [] tsAndGoFiles).outcome
      = .returned (processLinterOutput (decodeOnly noisyDoc noisyParsed) noisyReport
          "GolangCILint") none ∧
    (processLinterOutput (decodeOnly noisyDoc noisyParsed) noisyReport "GolangCILint").length
      = 2 := by
  refine ⟨by decide, by decide, by decide, by decide, by decide⟩

/-- C14 (the code at a failing input): in a workspace where every
    configuration file already exists, `RunPythonLinter` replaces `.flake8`
    and `runGolangCILint` replaces `.golangci.yml` by the built-in default,
    while `RunESLint` and `RunJavaLinter` leave their files as they were. -/
theorem runners_overwrite_existing_config :
    configuredFS.lookup "/w/.flake8" = some "[flake8]\nmax-line-length = 80\n" ∧
    (RunPythonLinter sampleSys configuredFS "/w" ["/w/tool.py"]).2.lookup "/w/.flake8"
      = some flake8Config ∧
    flake8Config ≠ "[flake8]\nmax-line-length = 80\n" ∧
    configuredFS.lookup "/w/.golangci.yml" = some "linters:\n  disable-all: true\n" ∧
    (runGolangCILint sampleSys configuredFS "/w" ["/w/main.go"]).2.lookup "/w/.golangci.yml"
      = some golangciConfig ∧
    golangciConfig ≠ "linters:\n  disable-all: true\n" ∧
    (RunESLint sampleSys configuredFS "/w" ["/w/api.ts"]).2.lookup "/w/eslint.config.js"
      = configuredFS.lookup "/w/eslint.config.js" ∧
    (RunESLint sampleSys configuredFS "/w" ["/w/api.ts"]).2.lookup "/w/package.json"
      = configuredFS.lookup "/w/package.json" ∧
    (RunJavaLinter sampleSys configuredFS "/w" ["/w/Foo.java"]).2.lookup "/w/checkstyle.xml"
      = configuredFS.lookup "/w/checkstyle.xml" := by
  refine ⟨by decide, by decide, by decide, by decide, by decide, by decide, by decide,
    by decide, by decide⟩

/-- C15 (the code at a failing input): with one Python file staged on a
    machine without `flake8`, the scratch directory is created and written
    to, `Analyze` ends in `log.Fatalf`, and the deferred
    `os.RemoveAll(tempDir)` never runs. -/
theorem analyze_fatal_leaves_tempDir :
    (machineEnv noFlake8Sys).TempDir = .ok "/tmp/keploy-review-1" ∧
    (Analyze (machineEnv noFlake8Sys) "" [] pyOnlyFiles).fs
      = [("/tmp/keploy-review-1/tool.py", "pass")] ∧
    (Analyze (machineEnv noFlake8Sys) "" [] pyOnlyFiles).outcome
      = .fatal "Error running flake8: flake8 not found in PATH: executable file not found in $PATH" ∧
    (Analyze (machineEnv noFlake8Sys) "" [] pyOnlyFiles).tempDirRemoved = false := by
  refine ⟨rfl, by decide, by decide, by decide⟩

/-! ## Advisory -/

/-- C16 (as stated, refuted): an input with only a Go file (TypeScript,
    Python and Java missing) and an input with a Go and a Python file
    (TypeScript and Java missing) leave the same `Comment`, which names
    Java only. -/
theorem analyze_comment_names_last_missing_only :
    noneStaged sampleEnv "/tmp/keploy-review-1" ".py" goOnlyFiles = true ∧
    noneStaged sampleEnv "/tmp/keploy-review-1" ".py" goAndPyFiles = false ∧
    (Analyze sampleEnv "" [] goOnlyFiles).Comment = "Add a Java code file to your PR" ∧
    (Analyze sampleEnv "" [] goAndPyFiles).Comment = "Add a Java code file to your PR" ∧
    ¬ ((Analyze sampleEnv "" [] goOnlyFiles).Comment
        ≠ (Analyze sampleEnv "" [] goAndPyFiles).Comment) := by
  refine ⟨by decide, by decide, by decide, by decide, by decide⟩

/-- C16 (amended): when the temporary directory is created and staging
    succeeds, the lines `Analyze` logs begin with the advisory lines, which
    name each language without a staged file in a line of its own (all four
    in one combined line when nothing is staged) and are followed by nothing
    else when `Analyze` returns; different sets of missing languages give
    different advisory lines; the package variable `Comment` ends up with
    the combined message, or with the message of the last missing language
    in the order Go, TypeScript, Python, Java, or unchanged when no language
    is missing. -/
theorem analyze_advisory_lines_and_comment (env : Env) (comment : String) (fs : FS)
    (files : List File) (tempDir : String) (st : Staging)
    (htmp : env.TempDir = .ok tempDir)
    (hst : stageLoop env tempDir files (Staging.init fs) = .ok st) :
    (∃ tail, (Analyze env comment fs files).logs
        = advisoryLines (noneStaged env tempDir ".go" files)
            (noneStaged env tempDir ".ts" files) (noneStaged env tempDir ".py" files)
            (noneStaged env tempDir ".java" files) ++ tail ∧
      (∀ issues err, (Analyze env comment fs files).outcome = .returned issues err →
        tail = [])) ∧
    (∀ a b c e a1 b1 c1 e1 : Bool,
      advisoryLines a b c e = advisoryLines a1 b1 c1 e1 → a = a1 ∧ b = b1 ∧ c = c1 ∧ e = e1) ∧
    (Analyze env comment fs files).Comment
      = advisoryComment (noneStaged env tempDir ".go" files)
          (noneStaged env tempDir ".ts" files) (noneStaged env tempDir ".py" files)
          (noneStaged env tempDir ".java" files) comment := by
  obtain ⟨h1, h2⟩ := analyze_advisory env comment fs files tempDir st htmp hst
  exact ⟨h1, advisoryLines_injective, h2⟩

/-- Scenario C logs one line for each of TypeScript, Python and Java and
    leaves the Java message in `Comment`. -/
theorem analyze_advisory_lines_and_comment_witness :
    sampleEnv.TempDir = .ok "/tmp/keploy-review-1" ∧
    stageLoop sampleEnv "/tmp/keploy-review-1" scenarioCFiles (Staging.init [])
      = .ok scenarioCStaged ∧
    (Analyze sampleEnv "" [] scenarioCFiles).logs
      = ["No TypeScript files detected in PR", "No Python files detected in PR",
         "No Java files detected in PR"] ∧
    (Analyze sampleEnv "" [] scenarioCFiles).Comment
      = advisoryComment (noneStaged sampleEnv "/tmp/keploy-review-1" ".go" scenarioCFiles)
          (noneStaged sampleEnv "/tmp/keploy-review-1" ".ts" scenarioCFiles)
          (noneStaged sampleEnv "/tmp/keploy-review-1" ".py" scenarioCFiles)
          (noneStaged sampleEnv "/tmp/keploy-review-1" ".java" scenarioCFiles) "" ∧
    (Analyze sampleEnv "" [] scenarioCFiles).Comment = "Add a Java code file to your PR" :=
  ⟨rfl, by rfl, by decide,
    (analyze_advisory_lines_and_comment sampleEnv "" [] scenarioCFiles "/tmp/keploy-review-1"
      scenarioCStaged rfl (by rfl)).2.2,
    by decide⟩

/-! ## Severity values -/

/-- C17 (as stated, refuted): the golangci-lint report `noisyReport`, one of
    whose entries has an empty severity, and the Checkstyle report
    `ignoreReport`, whose error has the severity `ignore`, each yield an
    issue whose severity is none of `info`, `warning`, `error`. -/
theorem normalizers_pass_other_severities :
    (∃ i ∈ processLinterOutput (decodeOnly noisyDoc noisyParsed) noisyReport "GolangCILint",
      i.Severity = "" ∧ i.Severity ∉ canonicalSeverities) ∧
    (∃ i ∈ processCheckstyleOutput (decodeOnly ignoreReport ignoreParsed) id ignoreReport,
      i.Severity = "ignore" ∧ i.Severity ∉ canonicalSeverities) := by
  refine ⟨by decide, by decide⟩

/-- C17 (amended): each normalizer yields one issue per entry it keeps and
    hands the entry's severity string on: for `processLinterOutput` the
    severity of the k-th issue equals that of the k-th kept entry up to
    letter case, is canonical when the entry's is, and only when the
    entry's lower-cased severity is; for `processCheckstyleOutput` the
    severities are exactly the lower-cased severity attributes in document
    order. No other string is turned into a canonical value and no entry is
    dropped for its severity. -/
theorem normalizers_pass_severity_through
    (jsonUnmarshal : String → Option LintResults)
    (xmlUnmarshal : String → Option checkstyleXML) (table : Char → Char)
    (jsonOutput tool xmlOutput : String) (jsonStart : Nat) (r : LintResults)
    (doc : checkstyleXML)
    (hstart : IndexAny (TrimSpace jsonOutput) "\x7b[" = some jsonStart)
    (hparse : jsonUnmarshal (extractJSON (sliceFrom (TrimSpace jsonOutput) jsonStart))
      = some r)
    (hne : TrimSpace xmlOutput ≠ "")
    (hxml : xmlUnmarshal (TrimSpace xmlOutput) = some doc) :
    (processLinterOutput jsonUnmarshal jsonOutput tool).length
      = (r.Issues.filter (fun e => decide (e.Text ≠ ignoredText))).length ∧
    (∀ (k : Nat) (e : IssueData),
      (r.Issues.filter (fun e => decide (e.Text ≠ ignoredText)))[k]? = some e →
      ∃ i : Issue, (processLinterOutput jsonUnmarshal jsonOutput tool)[k]? = some i ∧
        ToLower table i.Severity = ToLower table e.Severity ∧
        (e.Severity ∈ canonicalSeverities → i.Severity ∈ canonicalSeverities) ∧
        (i.Severity ∈ canonicalSeverities →
          ToLower table e.Severity ∈ canonicalSeverities)) ∧
    (processCheckstyleOutput xmlUnmarshal table xmlOutput).map (fun i => i.Severity)
      = doc.Files.flatMap (fun f => f.Errors.map (fun e => ToLower table e.Severity)) ∧
    (processCheckstyleOutput xmlUnmarshal table xmlOutput).length
      = (doc.Files.map (fun f => f.Errors.length)).sum := by
  have hj := processLinterOutput_parsed jsonUnmarshal jsonOutput tool jsonStart r hstart hparse
  have hx := processCheckstyleOutput_parsed xmlUnmarshal table xmlOutput doc hne hxml
  refine ⟨by rw [hj, List.length_map], ?_, ?_, by rw [hx, length_flatMap_errors]⟩
  · intro k e hk
    refine ⟨linterIssue tool e, ?_, rfl, fun h => h, ?_⟩
    · rw [hj, List.getElem?_map, hk]
      rfl
    · intro h
      have hs : (linterIssue tool e).Severity = e.Severity := rfl
      rw [hs] at h
      simp only [canonicalSeverities, List.mem_cons, List.mem_singleton, List.mem_nil_iff,
        or_false] at h
      have l1 : ToLower table "info" = "info" := rfl
      have l2 : ToLower table "warning" = "warning" := rfl
      have l3 : ToLower table "error" = "error" := rfl
      rcases h with h | h | h
      · rw [h, l1]; decide
      · rw [h, l2]; decide
      · rw [h, l3]; decide
  · rw [hx]
    simp only [List.map_flatMap, List.map_map]
    rfl

/-- The report `noisyReport` hands on the severities `Error` and the empty
    string, neither canonical; the report `twoFileReport` yields the
    lower-cased severities `warning`, `error`, `info`. -/
theorem normalizers_pass_severity_through_witness :
    IndexAny (TrimSpace noisyReport) "\x7b[" = some 37 ∧
    decodeOnly noisyDoc noisyParsed (extractJSON (sliceFrom (TrimSpace noisyReport) 37))
      = some noisyParsed ∧
    TrimSpace twoFileReport ≠ "" ∧
    decodeOnly twoFileReport twoFileParsed (TrimSpace twoFileReport) = some twoFileParsed ∧
    (∃ i, (processLinterOutput (decodeOnly noisyDoc noisyParsed) noisyReport "GolangCILint")[1]?
        = some i ∧
      ToLower id i.Severity = ToLower id "" ∧
      ("" ∈ canonicalSeverities → i.Severity ∈ canonicalSeverities) ∧
      (i.Severity ∈ canonicalSeverities → ToLower id "" ∈ canonicalSeverities)) ∧
    (processLinterOutput (decodeOnly noisyDoc noisyParsed) noisyReport "GolangCILint").map
        (fun i => i.Severity) = ["Error", ""] ∧
    (processCheckstyleOutput (decodeOnly twoFileReport twoFileParsed) id twoFileReport).map
        (fun i => i.Severity) = ["warning", "error", "info"] :=
  ⟨by decide, by decide, by decide, by decide,
    (normalizers_pass_severity_through (decodeOnly noisyDoc noisyParsed)
      (decodeOnly twoFileReport twoFileParsed) id noisyReport "GolangCILint" twoFileReport 37
      noisyParsed twoFileParsed (by decide) (by decide) (by decide) (by decide)).2.1 1
      { FromLinter := "govet", Text := "unreachable code", Severity := "",
        SourceLines := [], Pos := ⟨"c.go", 10, 2⟩ } (by decide),
    by decide, by decide⟩

/-! ## What reaches the JSON decoder -/

/-- C18 (the code at a failing input): for the ESLint report `arrayReport`,
    a top-level JSON array, `processLinterOutput` finds the `[` at index 0
    of the trimmed output and cuts there, yet `extractJSON` then cuts again
    at the first `{`, so the text handed to the decoder starts at the `{`
    after the bracket; for `[]` the decoder receives the empty text; and
    for no output at all does the decoder receive a text that begins with
    `[`. -/
theorem jsonPayload_skips_square_bracket :
    IndexAny (TrimSpace arrayReport) "\x7b[" = some 0 ∧
    (sliceFrom (TrimSpace arrayReport) 0).data.head? = some '[' ∧
    jsonPayload arrayReport
      = some "\x7b\"filePath\":\"/w/api.ts\",\"messages\":[],\"errorCount\":0\x7d" ∧
    ¬ (∃ p, jsonPayload arrayReport = some p ∧ p.data.head? = some '[') ∧
    jsonPayload bracketLogReport = some "\x7b\"Issues\":[]\x7d" ∧
    jsonPayload "[]" = some "" ∧
    (∀ output p : String, jsonPayload output = some p → p.data.head? ≠ some '[') := by
  refine ⟨by decide, by decide, by decide, ?_, by decide, by decide, ?_⟩
  swap
  · intro output p hp
    unfold jsonPayload at hp
    by_cases hne : TrimSpace output = ""
    · simp [hne] at hp
    · simp only [hne, if_false] at hp
      cases hj : IndexAny (TrimSpace output) "\x7b[" with
      | none => simp [hj] at hp
      | some j =>
        simp only [hj, Option.some.injEq] at hp
        subst hp
        rcases extractJSON_shape (sliceFrom (TrimSpace output) j) with h | ⟨h, -⟩
        · rw [h]; decide
        · rw [h]; decide
  rintro ⟨p, hp, hhead⟩
  have h : jsonPayload arrayReport
      = some "\x7b\"filePath\":\"/w/api.ts\",\"messages\":[],\"errorCount\":0\x7d" := by decide
  rw [h] at hp
  simp only [Option.some.injEq] at hp
  subst hp
  exact absurd hhead (by decide)

/-- The text handed to the decoder: for every output whose trimmed form
    contains a `{` or a `[`, the text `processLinterOutput` hands to the decoder is
    `extractJSON` of the trimmed output: the span from its first `{` to its
    last `}`; it is empty or begins with `{` and ends with `}`, and never
    begins at a `[`. -/
theorem jsonPayload_is_brace_span (output : String) (j : Nat)
    (hstart : IndexAny (TrimSpace output) "\x7b[" = some j) :
    jsonPayload output = some (extractJSON (TrimSpace output)) ∧
    (∀ (unmarshal : String → Option LintResults) (tool : String),
      processLinterOutput unmarshal output tool
        = match unmarshal (extractJSON (TrimSpace output)) with
          | none => []
          | some r => r.Issues.foldl (linterStep tool) []) ∧
    (extractJSON (TrimSpace output) = "" ∨
      ((extractJSON (TrimSpace output)).data.head? = some '\x7b' ∧
        (extractJSON (TrimSpace output)).data.getLast? = some '\x7d')) ∧
    (∀ i k, IndexAny (TrimSpace output) "\x7b" = some i →
      LastIndexAny (TrimSpace output) "\x7d" = some k → ¬ k < i →
        extractJSON (TrimSpace output) = slice (TrimSpace output) i (k + 1)) ∧
    (extractJSON (TrimSpace output)).data.head? ≠ some '[' ∧
    (IndexAny (TrimSpace output) "\x7b" = none ∨
        LastIndexAny (TrimSpace output) "\x7d" = none ∨
        (∃ i k, IndexAny (TrimSpace output) "\x7b" = some i ∧
          LastIndexAny (TrimSpace output) "\x7d" = some k ∧ k < i) →
      extractJSON (TrimSpace output) = "") := by
  have hp := jsonPayload_eq output j hstart
  have hshape := extractJSON_shape (TrimSpace output)
  refine ⟨hp, ?_, hshape, ?_, ?_, ?_⟩
  rotate_left 3
  · intro h
    unfold extractJSON
    rcases h with h | h | ⟨i, k, hi, hk, hik⟩
    · rw [h]
    · rw [h]
      cases IndexAny (TrimSpace output) "\x7b" <;> rfl
    · simp [hi, hk, hik]
  · intro unmarshal tool
    rw [processLinterOutput_eq_payload, hp]
  · intro i k hi hk hik
    exact extractJSON_span _ i k hi hk hik
  · rcases hshape with h | ⟨h, -⟩
    · rw [h]; decide
    · rw [h]; decide

/-- The report `noisyReport`: log line dropped, document handed over. -/
theorem jsonPayload_is_brace_span_witness :
    IndexAny (TrimSpace noisyReport) "\x7b[" = some 37 ∧
    jsonPayload noisyReport = some (extractJSON (TrimSpace noisyReport)) ∧
    extractJSON (TrimSpace noisyReport) = noisyDoc :=
  ⟨by decide, (jsonPayload_is_brace_span noisyReport 37 (by decide)).1, by decide⟩

/-- C19 (the code at a failing input): `extractJSON` returns the input
    `{"Issues":[],}` unchanged, and in general returns every text of the
    form `{` body `,}` unchanged: the span ends with `}`, so
    `strings.TrimRight(jsonContent, ",")` removes nothing. -/
theorem extractJSON_keeps_trailing_comma (body : String) :
    trailingCommaReport = "\x7b\"Issues\":[],\x7d" ∧
    extractJSON trailingCommaReport = "\x7b\"Issues\":[],\x7d" ∧
    extractJSON trailingCommaReport ≠ "\x7b\"Issues\":[]\x7d" ∧
    extractJSON ("\x7b" ++ body ++ ",\x7d") = "\x7b" ++ body ++ ",\x7d" := by
  refine ⟨rfl, by decide, by decide, ?_⟩
  apply extractJSON_braced
  · simp [String.data_append]
  · exact List.getLast?_eq_some_iff.2 ⟨'\x7b' :: body.data ++ [','], by simp [String.data_append]⟩

/-! ## Base-name collisions -/

/-- C20: after a completed staging loop, when `filepath.Join` keeps the base
    names of recognised files apart from other base names, the workspace
    entry for the base name of every recognised file holds the content of
    the last recognised input file with that base name; each per-language
    list holds the staged path of every file of that language, repeated for
    colliding files; and the entry of a base name that no recognised file
    has is the one the workspace had before. -/
theorem staging_last_write_wins (env : Env) (tempDir : String) (fs : FS)
    (files : List File) (st : Staging)
    (h : stageLoop env tempDir files (Staging.init fs) = .ok st)
    (hinj : ∀ f ∈ files, recognised f.Path = true → ∀ p : String,
      env.Join tempDir (filepath.Base f.Path) = env.Join tempDir (filepath.Base p) →
        filepath.Base f.Path = filepath.Base p) :
    (∀ f ∈ files, recognised f.Path = true →
      ∃ pre g post, files = pre ++ g :: post ∧ recognised g.Path = true ∧
        filepath.Base g.Path = filepath.Base f.Path ∧
        (∀ x ∈ post, recognised x.Path = true → filepath.Base x.Path ≠ filepath.Base f.Path) ∧
        st.fs.lookup (env.Join tempDir (filepath.Base f.Path)) = some g.Content) ∧
    (st.goFiles = (files.filter (fun f => HasSuffix f.Path ".go")).map
        (fun f => env.Join tempDir (filepath.Base f.Path)) ∧
      st.tsFiles = (files.filter (fun f => HasSuffix f.Path ".ts")).map
        (fun f => env.Join tempDir (filepath.Base f.Path)) ∧
      st.pyFiles = (files.filter (fun f => HasSuffix f.Path ".py")).map
        (fun f => env.Join tempDir (filepath.Base f.Path)) ∧
      st.javaFiles = (files.filter (fun f => HasSuffix f.Path ".java")).map
        (fun f => env.Join tempDir (filepath.Base f.Path))) ∧
    (∀ p : String, (∀ f ∈ files, recognised f.Path = true →
        filepath.Base f.Path ≠ filepath.Base p) →
      st.fs.lookup (env.Join tempDir (filepath.Base p))
        = fs.lookup (env.Join tempDir (filepath.Base p))) := by
  obtain ⟨h1, h2⟩ := stageLoop_lookup env tempDir fs files st h hinj
  obtain ⟨b1, b2, b3, b4, -⟩ := stageLoop_ok env tempDir files _ st h
  simp only [Staging.init, List.nil_append] at b1 b2 b3 b4
  exact ⟨h1, ⟨b1, b2, b3, b4⟩, h2⟩

/-- On `collidingFiles` the entry `util.go` holds the content of
    `pkg/util.go`, the Go list holds the staged path twice, and `README.md`
    has no entry. -/
theorem staging_last_write_wins_witness :
    stageLoop sampleEnv "/tmp/keploy-review-1" collidingFiles (Staging.init [])
      = .ok collidingStaged ∧
    collidingStaged.fs.lookup "/tmp/keploy-review-1/util.go" = some "package pkg" ∧
    collidingStaged.goFiles = ["/tmp/keploy-review-1/util.go", "/tmp/keploy-review-1/util.go"] ∧
    collidingStaged.fs.lookup (sampleEnv.Join "/tmp/keploy-review-1" (filepath.Base "README.md"))
      = ([] : FS).lookup (sampleEnv.Join "/tmp/keploy-review-1" (filepath.Base "README.md")) :=
  ⟨by rfl, by decide, by decide,
    (staging_last_write_wins sampleEnv "/tmp/keploy-review-1" [] collidingFiles collidingStaged
      (by rfl) (fun _ _ _ _ hk => append_left_cancel_string _ _ _ hk)).2.2 "README.md"
      (by decide)⟩

/-! ## Reports without an issue list -/

/-- C21 (as stated, refuted): the report `lowercaseReport` is a JSON object
    whose only member is named `issues`, so it has no member named `Issues`;
    `json.Unmarshal` still decodes that member into the field `Issues`, and
    `processLinterOutput` returns one issue. -/
theorem processLinterOutput_reads_lowercase_member :
    sampleParse (extractJSON (TrimSpace lowercaseReport)) = some lowercaseJson ∧
    lowercaseJson.memberNames = ["issues"] ∧
    "Issues" ∉ lowercaseJson.memberNames ∧
    processLinterOutput (json.Unmarshal id sampleParse) lowercaseReport "GolangCILint"
      = [{ Path := "a.go", Line := 3, Column := 7, Severity := "warning",
           Title := "GolangCILint Issue: unreachable code",
           Description := "unreachable code",
           Suggestion := "Consider fixing this issue based on the linter's feedback.",
           Source := "GolangCILint" }] ∧
    processLinterOutput (json.Unmarshal id sampleParse) lowercaseReport "GolangCILint" ≠ [] := by
  refine ⟨by rfl, by rfl, by decide, by decide, by decide⟩

/-- C21 (amended): when the brace span of the trimmed output scans as a
    JSON object none of whose member names matches `Issues`, exactly or
    after folding letter case, `json.Unmarshal` leaves `Issues` empty and
    `processLinterOutput` returns no issue, whatever the other members
    hold; and an output that `RunESLint` returns with a nil error has passed
    its JSON array check. -/
theorem processLinterOutput_needs_Issues_member
    (fold : Char → Char) (parse : String → Option Json) (output tool : String)
    (members : List (String × Json))
    (hparse : parse (extractJSON (TrimSpace output)) = some (.obj members))
    (hnone : ∀ m ∈ members, json.fieldMatches fold "Issues" m.1 = false) :
    json.Unmarshal fold parse (extractJSON (TrimSpace output)) = some { Issues := [] } ∧
    processLinterOutput (json.Unmarshal fold parse) output tool = [] ∧
    (∀ (sys : Sys) (fs : FS) (dir : String) (files : List String),
      (RunESLint sys fs dir files).1.err = none →
        sys.jsonArrayErr (RunESLint sys fs dir files).1.output = none) := by
  have hdec : json.Unmarshal fold parse (extractJSON (TrimSpace output))
      = some { Issues := [] } := by
    unfold json.Unmarshal
    simp only [hparse, json.decodeLintResults]
    exact decodeMembers_skipped fold members { Issues := [] } hnone
  refine ⟨hdec, ?_, RunESLint_output_accepted⟩
  rcases processLinterOutput_of_decoded _ output tool _ hdec with h | h
  · exact h
  · rw [h]; rfl

/-- The ESLint report `eslintReport` with two findings and the flake8-json
    report `flake8Report` with one finding yield no issue, alone and in a
    run of `Analyze`. -/
theorem processLinterOutput_needs_Issues_member_witness :
    sampleParse (extractJSON (TrimSpace eslintReport)) = some eslintJson ∧
    eslintJson.memberNames = ["filePath", "messages", "errorCount", "warningCount"] ∧
    processLinterOutput (json.Unmarshal id sampleParse) eslintReport "ESLint" = [] ∧
    sampleParse (extractJSON (TrimSpace flake8Report)) = some flake8Json ∧
    flake8Json.memberNames = ["./tool.py"] ∧
    processLinterOutput (json.Unmarshal id sampleParse) flake8Report "Flake8" = [] ∧
    nativeFormatSys.jsonArrayErr eslintReport = none ∧
    (Analyze (nativeFormatSys.env (.ok "/tmp/keploy-review-1")
        (json.Unmarshal id sampleParse) (fun _ => none) id) "" [] tsAndPyFiles).outcome
      = .returned [] none ∧
    (Analyze (nativeFormatSys.env (.ok "/tmp/keploy-review-1")
        (json.Unmarshal id sampleParse) (fun _ => none) id) "" [] tsAndPyFiles).calls.map
        (fun c => (c.tool, c.result.output))
      = [(Tool.ESLint, eslintReport), (Tool.Flake8, flake8Report)] :=
  ⟨by rfl, by rfl,
    (processLinterOutput_needs_Issues_member id sampleParse eslintReport "ESLint" _ (by rfl)
      (by decide)).2.1,
    by rfl, by rfl,
    (processLinterOutput_needs_Issues_member id sampleParse flake8Report "Flake8" _ (by rfl)
      (by decide)).2.1,
    by decide, by decide, by decide⟩

/-! ## The PR URL -/

/-- C22 (the code at a failing input): for the URL
    `https://github.com/owner/repo`, which splits into five parts, the guard
    `len(parts) < 5` lets the call through and `parts[6]` panics with an
    index out of range; the same holds for every URL that splits into five
    or six parts, while `parts[3]` and `parts[4]` are always within bounds
    after the guard and a URL of seven parts is read as owner, repository
    and number. -/
theorem initializePRContext_panics_on_short_url
    (rest : String → String → String → Option String) :
    Split "https://github.com/owner/repo" '/' = ["https:", "", "github.com", "owner", "repo"] ∧
    initializePRContext rest "https://github.com/owner/repo" = .indexPanic 6 5 ∧
    initializePRContext rest "https://github.com/owner/repo/pull" = .indexPanic 6 6 ∧
    initializePRContext rest "https://github.com/owner/repo/pull/7"
      = .returned (rest "owner" "repo" "7") ∧
    initializePRContext rest "github.com/owner/repo"
      = .returned (some
          "invalid PR URL format. Expected: https://github.com/owner/repo/pull/number") ∧
    (∀ prURL : String,
      (Split prURL '/').length = 5 ∨ (Split prURL '/').length = 6 →
        initializePRContext rest prURL = .indexPanic 6 (Split prURL '/').length) ∧
    (∀ prURL : String, ¬ (Split prURL '/').length < 5 →
      (Split prURL '/')[3]? ≠ none ∧ (Split prURL '/')[4]? ≠ none) := by
  refine ⟨by decide, rfl, rfl, rfl, rfl, ?_, ?_⟩
  · intro prURL hlen
    have h5 : ¬ (Split prURL '/').length < 5 := by omega
    have h3 : 3 < (Split prURL '/').length := by omega
    have h4 : 4 < (Split prURL '/').length := by omega
    have h6 : (Split prURL '/').length ≤ 6 := by omega
    unfold initializePRContext
    simp only [h5, if_false, List.getElem?_eq_getElem h3, List.getElem?_eq_getElem h4,
      List.getElem?_eq_none h6]
  · intro prURL hlen
    constructor
    · rw [List.getElem?_eq_getElem (by omega)]; simp
    · rw [List.getElem?_eq_getElem (by omega)]; simp

end PullPilot
